import Mathlib

/-!
# PropertiesFile: a file-backed key/value store

A shallow embedding of `src/utilities/juce_PropertiesFile.cpp`.

* The functions of that file (`PropertiesFile::PropertiesFile`, `save`,
  `saveIfNeeded`, `needsToBeSaved`, `timerCallback`, `propertyChanged`) are
  translated statement by statement; the state of the object and the state of
  the file system are passed explicitly.
* The classes the file uses but does not define (streams, `StringPairArray`,
  `XmlElement`, `File`, `Timer`) are modelled from the specification; each
  such definition says so in its doc comment.
* What the specification only describes by contract (compression, the XML
  parser and writer, the choice of a sibling path) is a field of `Platform`;
  `refPlatform` is a small executable instance.
* C++ `int` is `Int`, reduced to 32 bits wherever a value is written to or
  read from a stream.
-/

namespace Juce

/-! ## Bytes, strings and 32-bit integers -/

/-- One byte of a stream or file. -/
abbrev Byte := Fin 256

/-- A string, held as its sequence of code units. -/
abbrev JString := List Byte

/-- The string-literal wrapper `T("...")` of the source. -/
def T (s : String) : JString := s.toList.map (fun c => Fin.ofNat c.toNat)

/-- Reinterpretation of an unsigned 32-bit pattern as a C++ `int`. -/
def toInt32 (u : Nat) : Int :=
  if u % 4294967296 < 2147483648 then ((u % 4294967296 : Nat) : Int)
  else ((u % 4294967296 : Nat) : Int) - 4294967296

/-- Modelled from the spec: `littleEndianInt`, which packs the first four
bytes of a character array into an unsigned 32-bit value, lowest byte first. -/
def littleEndianInt (b : List Byte) : Nat :=
  (b.getD 0 0).val + 256 * (b.getD 1 0).val + 65536 * (b.getD 2 0).val
    + 16777216 * (b.getD 3 0).val

/-- Source line 43: `propFileMagicNumber = (int) littleEndianInt ("PROP")`. -/
def propFileMagicNumber : Int := toInt32 (littleEndianInt (T "PROP"))

/-- Source line 44: `propFileMagicNumberCompressed = (int) littleEndianInt ("CPRP")`. -/
def propFileMagicNumberCompressed : Int := toInt32 (littleEndianInt (T "CPRP"))

/-- Source line 46. -/
def propertyFileXmlTag : JString := T "PROPERTIES"

/-- Source line 47. -/
def propertyTagName : JString := T "VALUE"

/-! ## Byte streams -/

/-- Modelled from the spec: `OutputStream::writeInt`, a fixed-width (four
byte) integer write, lowest byte first. -/
def writeInt (v : Int) : List Byte :=
  let u := (v % 4294967296).toNat
  [Fin.ofNat u, Fin.ofNat (u / 256), Fin.ofNat (u / 65536), Fin.ofNat (u / 16777216)]

/-- Modelled from the spec: `InputStream::readInt`, the fixed-width integer
read; it returns the value and the rest of the stream. A stream with fewer
than four bytes left yields 0 and is exhausted afterwards. -/
def readInt (s : List Byte) : Int × List Byte :=
  match s with
  | b0 :: b1 :: b2 :: b3 :: rest => (toInt32 (littleEndianInt [b0, b1, b2, b3]), rest)
  | _ => (0, [])

/-- Modelled from the spec: `OutputStream::writeString`, a length-prefixed
string write (the length as a four-byte integer, then the code units). -/
def writeString (s : JString) : List Byte :=
  writeInt (s.length : Int) ++ s

/-- Modelled from the spec: `InputStream::readString`, the length-prefixed
string read. When the stream ends early the string holds the code units that
were still there. -/
def readString (s : List Byte) : JString × List Byte :=
  let r := readInt s
  (r.2.take r.1.toNat, r.2.drop r.1.toNat)

/-- Modelled from the spec: `InputStream::isExhausted`. -/
def isExhausted (s : List Byte) : Bool := s.isEmpty

/-! ## The property set -/

/-- Lower-case form of an ASCII letter; other code units are unchanged. -/
def toLowerCase (b : Byte) : Byte :=
  if 65 ≤ b.val ∧ b.val ≤ 90 then Fin.ofNat (b.val + 32) else b

/-- Modelled from the spec: key comparison under the case-folding policy
(case-insensitive when `ignoreCase` is set, exact otherwise). -/
def keyMatches (ignoreCase : Bool) (a b : JString) : Bool :=
  if ignoreCase then decide (a.map toLowerCase = b.map toLowerCase) else decide (a = b)

/-- Replace the value of the first entry whose key matches, or append a new
entry when no key matches. -/
def setEntry (ignoreCase : Bool) :
    List (JString × JString) → JString → JString → List (JString × JString)
  | [], key, value => [(key, value)]
  | (k, v) :: rest, key, value =>
    if keyMatches ignoreCase k key then (k, value) :: rest
    else (k, v) :: setEntry ignoreCase rest key value

/-- Modelled from the spec: `StringPairArray`, the ordered string-keyed
mapping behind `PropertySet`, with its case-folding policy fixed at
construction. -/
structure StringPairArray where
  entries : List (JString × JString)
  ignoreCase : Bool
deriving DecidableEq

/-- Modelled from the spec: `StringPairArray::set` (insert or overwrite by key). -/
def StringPairArray.set (a : StringPairArray) (key value : JString) : StringPairArray :=
  { a with entries := setEntry a.ignoreCase a.entries key value }

/-- Modelled from the spec: `StringPairArray::size`. -/
def StringPairArray.size (a : StringPairArray) : Nat := a.entries.length

/-- Modelled from the spec: `StringPairArray::getAllKeys`. -/
def StringPairArray.getAllKeys (a : StringPairArray) : List JString := a.entries.map Prod.fst

/-- Modelled from the spec: `StringPairArray::getAllValues`. -/
def StringPairArray.getAllValues (a : StringPairArray) : List JString := a.entries.map Prod.snd

/-! ## XML elements -/

/-- Modelled from the spec: `XmlElement`, a node of a hierarchical document
with a tag name, attributes and child elements. A run of text is a node with
an empty tag name whose `text` attribute holds the characters. -/
inductive XmlElement where
  | mk (tagName : JString) (attributes : List (JString × JString))
      (children : List XmlElement)

/-- Tag name of an element. -/
def XmlElement.tagName : XmlElement → JString
  | .mk t _ _ => t

/-- Attributes of an element, in document order. -/
def XmlElement.attributes : XmlElement → List (JString × JString)
  | .mk _ a _ => a

/-- Child elements, in document order. -/
def XmlElement.children : XmlElement → List XmlElement
  | .mk _ _ c => c

/-- Modelled from the spec: `new XmlElement (tag)`. -/
def XmlElement.new (tag : JString) : XmlElement := .mk tag [] []

/-- Modelled from the spec: `XmlElement::hasTagName`. -/
def XmlElement.hasTagName (e : XmlElement) (tag : JString) : Bool := decide (e.tagName = tag)

/-- Modelled from the spec: `XmlElement::setAttribute`. -/
def XmlElement.setAttribute (e : XmlElement) (name value : JString) : XmlElement :=
  .mk e.tagName (setEntry false e.attributes name value) e.children

/-- Modelled from the spec: `XmlElement::getStringAttribute`, empty when the
attribute is absent. -/
def XmlElement.getStringAttribute (e : XmlElement) (name : JString) : JString :=
  match e.attributes.find? (fun a => decide (a.1 = name)) with
  | some a => a.2
  | none => []

/-- Modelled from the spec: `XmlElement::addChildElement` (append as last child). -/
def XmlElement.addChildElement (e child : XmlElement) : XmlElement :=
  .mk e.tagName e.attributes (e.children ++ [child])

/-- Modelled from the spec: `XmlElement::getFirstChildElement`. -/
def XmlElement.getFirstChildElement (e : XmlElement) : Option XmlElement := e.children.head?

/-- Modelled from the spec: the children visited by
`forEachXmlChildElementWithTagName`. -/
def XmlElement.childElementsWithTagName (e : XmlElement) (tag : JString) : List XmlElement :=
  e.children.filter (fun c => c.hasTagName tag)

/-! ## Files, the file system and the clock -/

/-- Modelled from the spec: `File`, a path in the file system. -/
structure File where
  fullPath : JString
deriving DecidableEq

/-- Modelled from the spec: `File::nonexistent`, the empty path. -/
def File.nonexistent : File := ⟨[]⟩

/-- What an operation did to its surroundings, recorded in order. -/
inductive Event where
  | saveCalled
  | createdDirectory (dir : File)
  | openedForWriting (f : File)
  | movedFile (source target : File)
  | deletedFile (f : File)
deriving DecidableEq

/-- The surroundings of a store: the content of every regular file, the set of
directories, the clock (in milliseconds) and the record of what has been done. -/
structure World where
  files : File → Option (List Byte)
  directories : File → Bool
  now : Int
  trace : List Event

/-- Outcome of each file-system primitive that may fail for reasons outside
the program (permissions, a full disk, a vanished directory). -/
structure Faults where
  createInputStreamOk : Bool
  createDirectoryOk : Bool
  createOutputStreamOk : Bool
  moveFileOk : Bool
  writeToFileOk : Bool
deriving DecidableEq

/-- No primitive fails. -/
def Faults.none : Faults := ⟨true, true, true, true, true⟩

/-- Append an event to the record. -/
def World.log (w : World) (e : Event) : World := { w with trace := w.trace ++ [e] }

/-- Replace (or remove) the content at one path. -/
def World.setFile (w : World) (f : File) (c : Option (List Byte)) : World :=
  { w with files := fun g => if g = f then c else w.files g }

/-- Modelled from the spec: `File::createInputStream`, absent when the file
does not exist or cannot be opened. -/
def World.createInputStream (w : World) (fl : Faults) (f : File) : Option (List Byte) :=
  if fl.createInputStreamOk then w.files f else Option.none

/-- Modelled from the spec: `File::isDirectory`. -/
def World.isDirectory (w : World) (f : File) : Bool := w.directories f

/-- Modelled from the spec: `File::createDirectory`, true when the directory
exists already or could be created. -/
def World.createDirectory (w : World) (fl : Faults) (dir : File) : Bool × World :=
  if w.directories dir then (true, w)
  else if fl.createDirectoryOk then
    (true, { w with directories := fun g => if g = dir then true else w.directories g }.log
      (.createdDirectory dir))
  else (false, w)

/-- Modelled from the spec: `File::createOutputStream`, which creates the file
and opens it for writing; absent when that fails. -/
def World.createOutputStream (w : World) (fl : Faults) (f : File) : Option World :=
  if fl.createOutputStreamOk then some ((w.setFile f (some [])).log (.openedForWriting f))
  else Option.none

/-- Bytes written through an open output stream and flushed. -/
def World.write (w : World) (f : File) (bytes : List Byte) : World :=
  w.setFile f (some ((w.files f).getD [] ++ bytes))

/-- Modelled from the spec: `File::moveFileTo`, the atomic replace; when it
fails nothing has changed. -/
def World.moveFileTo (w : World) (fl : Faults) (source target : File) : Bool × World :=
  if fl.moveFileOk then
    if source = target then (true, w)
    else (true, ((w.setFile target (w.files source)).setFile source Option.none).log
      (.movedFile source target))
  else (false, w)

/-- Modelled from the spec: `File::deleteFile`. -/
def World.deleteFile (w : World) (f : File) : World :=
  (w.setFile f Option.none).log (.deletedFile f)

/-- Modelled from the spec: `XmlElement::writeToFile`, the document-write
primitive; `text` is the serialized document. When it fails the file is as it
was. -/
def World.writeToFile (w : World) (fl : Faults) (f : File) (text : List Byte) : Bool × World :=
  if fl.writeToFileOk then (true, (w.setFile f (some text)).log (.openedForWriting f))
  else (false, w)

/-! ## Collaborators described by contract only -/

/-- The collaborators the specification describes by their contract: path
arithmetic, the compression pair, and the XML parser and writer. -/
structure Platform where
  /-- The function `File::getParentDirectory`. -/
  getParentDirectory : File → File
  /-- The function `File::getNonexistentSibling (false)`. -/
  getNonexistentSibling : World → File → File
  /-- Everything a `GZIPCompressorOutputStream` emits for the bytes written to it. -/
  compress : List Byte → List Byte
  /-- Everything a `GZIPDecompressorInputStream` yields for the bytes under it. -/
  decompress : List Byte → List Byte
  /-- The function `XmlDocument::getDocumentElement (onlyReadOuterDocumentElement)`. -/
  getDocumentElement : Bool → List Byte → Option XmlElement
  /-- The function `XmlElement::createDocument (String::empty, true)`. -/
  createDocument : XmlElement → JString
  /-- The text `XmlElement::writeToFile (file, String::empty)` writes. -/
  documentText : XmlElement → List Byte

/-! ## The store -/

/-- Modelled from the spec: the state of the `Timer` base class, a periodic
timer: its period (0 while it is stopped) and the time at which its next
callback is due. -/
structure Timer where
  periodMs : Int
  due : Int
deriving DecidableEq

/-- Modelled from the spec: option flag of the header (absent from the
sources); the four flags are distinct single bits. -/
def ignoreCaseOfKeyNames : Nat := 1

/-- Modelled from the spec: option flag of the header, see `ignoreCaseOfKeyNames`. -/
def storeAsBinary : Nat := 2

/-- Modelled from the spec: option flag of the header, see `ignoreCaseOfKeyNames`. -/
def storeAsCompressedBinary : Nat := 4

/-- Modelled from the spec: option flag of the header, see `ignoreCaseOfKeyNames`. -/
def storeAsXML : Nat := 8

/-- The members of a `PropertiesFile` object: the mapping of its `PropertySet`
base, its own fields (source lines 54 to 57), the state of its `Timer` base,
and the number of change messages its `ChangeBroadcaster` base has sent. -/
structure PropertiesFile where
  properties : StringPairArray
  file : File
  timerInterval : Int
  options : Nat
  needsWriting : Bool
  timer : Timer
  changeMessages : Nat
deriving DecidableEq

/-- Modelled from the spec: `Timer::stopTimer`. -/
def PropertiesFile.stopTimer (this : PropertiesFile) : PropertiesFile :=
  { this with timer := ⟨0, 0⟩ }

/-- Modelled from the spec: `Timer::startTimer`, which (re)starts the timer
for the interval counted from now and drops a pending callback. -/
def PropertiesFile.startTimer (this : PropertiesFile) (now interval : Int) : PropertiesFile :=
  { this with timer := ⟨max 1 interval, now + interval⟩ }

/-- Modelled from the spec: `Timer::isTimerRunning`. -/
def PropertiesFile.isTimerRunning (this : PropertiesFile) : Bool := decide (0 < this.timer.periodMs)

/-- Modelled from the spec: `ChangeBroadcaster::sendChangeMessage`. -/
def PropertiesFile.sendChangeMessage (this : PropertiesFile) : PropertiesFile :=
  { this with changeMessages := this.changeMessages + 1 }

/-- Modelled from the spec: `PropertySet::getAllProperties`. -/
def PropertiesFile.getAllProperties (this : PropertiesFile) : StringPairArray := this.properties

/-- A C++ `int` after an arithmetic step, reduced to 32 bits. -/
def wrapInt (v : Int) : Int := toInt32 (v % 4294967296).toNat

/-- Source lines 84 to 92, the loop
`while (--numValues >= 0 && ! in.isExhausted())`. Every pass over a stream
that is not exhausted consumes at least one byte, so a number of passes equal
to the length of the stream is never exceeded; the first argument is that
bound. -/
def readValues : Nat → Int → List Byte → StringPairArray → StringPairArray
  | 0, _, _, props => props
  | fuel + 1, numValues, input, props =>
    let numValues := wrapInt (numValues - 1)
    if 0 ≤ numValues ∧ isExhausted input = false then
      let key := readString input
      let value := readString key.2
      readValues fuel numValues value.2
        (if key.1 ≠ [] then props.set key.1 value.1 else props)
    else props

/-- Source lines 109 to 120, the body of `forEachXmlChildElementWithTagName`
applied to the entry elements in document order. -/
def readXmlValues (P : Platform) : List XmlElement → StringPairArray → StringPairArray
  | [], props => props
  | e :: rest, props =>
    let name := e.getStringAttribute (T "name")
    readXmlValues P rest
      (if name ≠ [] then
        props.set name
          (match e.getFirstChildElement with
           | some child => P.createDocument child
           | Option.none => e.getStringAttribute (T "val"))
      else props)

/-- Source lines 50 to 132, `PropertiesFile::PropertiesFile`. The file is read
from `w`; the assertion on the option flags is a debug check and has no effect
on the result. -/
def PropertiesFile.new (P : Platform) (fl : Faults) (w : World) (f : File)
    (millisecondsBeforeSaving : Int) (options_ : Nat) : PropertiesFile :=
  let this : PropertiesFile :=
    { properties := ⟨[], decide (ignoreCaseOfKeyNames ≠ 0)⟩
      file := f
      timerInterval := millisecondsBeforeSaving
      options := options_
      needsWriting := false
      timer := ⟨0, 0⟩
      changeMessages := 0 }
  match w.createInputStream fl f with
  | Option.none => this
  | some content =>
    let first := readInt content
    let compressed : Bool := decide (first.1 = propFileMagicNumberCompressed)
    let fileStream := if compressed then P.decompress (content.drop 4) else first.2
    let magicNumber := if compressed then propFileMagicNumber else first.1
    if magicNumber = propFileMagicNumber then
      let count := readInt fileStream
      { this with
        properties := readValues count.2.length count.1 count.2 this.getAllProperties }
    else
      match P.getDocumentElement true content with
      | Option.none => this
      | some outer =>
        if outer.hasTagName propertyFileXmlTag then
          match P.getDocumentElement false content with
          | Option.none => this
          | some doc =>
            { this with
              properties :=
                readXmlValues P (doc.childElementsWithTagName propertyTagName)
                  this.getAllProperties }
        else this

/-- Source lines 146 to 151, `PropertiesFile::needsToBeSaved`. -/
def PropertiesFile.needsToBeSaved (this : PropertiesFile) : Bool := this.needsWriting

/-- Source lines 171 to 183: the element written for one entry. -/
def xmlEntry (P : Platform) (key value : JString) : XmlElement :=
  let e := (XmlElement.new propertyTagName).setAttribute (T "name") key
  match P.getDocumentElement false value with
  | some childElement => e.addChildElement childElement
  | Option.none => e.setAttribute (T "val") value

/-- Source lines 167 to 184: the document built from the mapping. -/
def xmlDocument (P : Platform) (props : StringPairArray) : XmlElement :=
  props.entries.foldl (fun doc kv => doc.addChildElement (xmlEntry P kv.1 kv.2))
    (XmlElement.new propertyFileXmlTag)

/-- Source lines 218 to 222: the key and value of every entry, in order. -/
def writePairs : List (JString × JString) → List Byte
  | [] => []
  | (k, v) :: rest => writeString k ++ writeString v ++ writePairs rest

/-- Source lines 214 to 222: the entry count, then the entries. -/
def writeValues (props : StringPairArray) : List Byte :=
  writeInt (props.size : Int) ++ writePairs props.entries

/-- Source lines 199 to 224: everything that reaches the temporary file. -/
def binaryFileContent (P : Platform) (options : Nat) (props : StringPairArray) : List Byte :=
  if options &&& storeAsCompressedBinary ≠ 0 then
    writeInt propFileMagicNumberCompressed ++ P.compress (writeValues props)
  else
    writeInt propFileMagicNumber ++ writeValues props

/-- Source lines 154 to 238, `PropertiesFile::save`. It returns the result,
the object afterwards and the world afterwards. -/
def PropertiesFile.save (P : Platform) (fl : Faults) (this : PropertiesFile) (w : World) :
    Bool × PropertiesFile × World :=
  let this := this.stopTimer
  let w := w.log .saveCalled
  if this.file = File.nonexistent ∨ w.isDirectory this.file = true then (false, this, w)
  else
    let made := w.createDirectory fl (P.getParentDirectory this.file)
    if made.1 = false then (false, this, made.2)
    else
      let w := made.2
      if this.options &&& storeAsXML ≠ 0 then
        let doc := xmlDocument P this.getAllProperties
        let ok := w.writeToFile fl this.file (P.documentText doc)
        (ok.1, this, ok.2)
      else
        let tempFile := P.getNonexistentSibling w this.file
        match w.createOutputStream fl tempFile with
        | some w =>
          let w := w.write tempFile (binaryFileContent P this.options this.getAllProperties)
          let moved := w.moveFileTo fl tempFile this.file
          if moved.1 then (true, { this with needsWriting := false }, moved.2)
          else (false, this, moved.2.deleteFile tempFile)
        | Option.none => (false, this, w)

/-- Source lines 139 to 144, `PropertiesFile::saveIfNeeded`:
`return (! needsWriting) || save();`. -/
def PropertiesFile.saveIfNeeded (P : Platform) (fl : Faults) (this : PropertiesFile)
    (w : World) : Bool × PropertiesFile × World :=
  if this.needsWriting = false then (true, this, w) else this.save P fl w

/-- Source lines 240 to 243, `PropertiesFile::timerCallback`. -/
def PropertiesFile.timerCallback (P : Platform) (fl : Faults) (this : PropertiesFile)
    (w : World) : PropertiesFile × World :=
  (this.saveIfNeeded P fl w).2

/-- Source lines 245 to 255, `PropertiesFile::propertyChanged`. -/
def PropertiesFile.propertyChanged (P : Platform) (fl : Faults) (this : PropertiesFile)
    (w : World) : PropertiesFile × World :=
  let this := this.sendChangeMessage
  let this := { this with needsWriting := true }
  if 0 < this.timerInterval then (this.startTimer w.now this.timerInterval, w)
  else if this.timerInterval = 0 then (this.saveIfNeeded P fl w).2
  else (this, w)

/-- Modelled from the spec: the mutation `set` of the store: it updates the
mapping and then notifies through `propertyChanged`; a call that does not
change the value still counts as a mutation. -/
def PropertiesFile.setValue (P : Platform) (fl : Faults) (this : PropertiesFile) (w : World)
    (key value : JString) : PropertiesFile × World :=
  PropertiesFile.propertyChanged P fl
    { this with properties := this.properties.set key value } w

/-! ## A reference platform

A small executable instance of `Platform`: path arithmetic on `/`-separated
paths, a framing codec in place of the compression pair, and a parser and
writer for a subset of XML (elements, attributes in double quotes, text, the
four entities `&amp;` `&lt;` `&gt;` `&quot;`, an optional `<?...?>` header). -/

/-- Modelled from the spec: parent directory of a `/`-separated path. -/
def refParentDirectory (f : File) : File :=
  ⟨((f.fullPath.reverse.dropWhile (fun b => decide (b ≠ 47))).drop 1).reverse⟩

/-- Modelled from the spec: a sibling path that does not exist yet: the path
itself followed by `_` and the first free digit. -/
def refNonexistentSibling (w : World) (f : File) : File :=
  let candidates : List File :=
    (List.range 10).map (fun n => ⟨f.fullPath ++ [95, Fin.ofNat (48 + n)]⟩)
  (candidates.find? (fun c => (w.files c).isNone && !w.directories c)).getD
    ⟨f.fullPath ++ T "_tmp"⟩

/-- Modelled from the spec: the encoding transform, here a frame of one
leading and one trailing byte around the unchanged payload. -/
def refCompress (bytes : List Byte) : List Byte := 120 :: (bytes ++ [Fin.ofNat bytes.length])

/-- Modelled from the spec: the decoding transform of `refCompress`. -/
def refDecompress (bytes : List Byte) : List Byte := (bytes.drop 1).dropLast

/-- White space between the parts of a document. -/
def isXmlSpace (b : Byte) : Bool := decide (b = 32 ∨ b = 9 ∨ b = 10 ∨ b = 13)

/-- Code units that may occur in a tag or attribute name. -/
def isXmlNameChar (b : Byte) : Bool :=
  !(isXmlSpace b) && decide (b ≠ 60 ∧ b ≠ 62 ∧ b ≠ 47 ∧ b ≠ 61 ∧ b ≠ 34 ∧ b ≠ 38 ∧ b ≠ 63)

/-- Replace the four special characters by their entities. -/
def xmlEscape : List Byte → List Byte
  | [] => []
  | b :: rest =>
    (if b = 38 then T "&amp;" else if b = 60 then T "&lt;" else if b = 62 then T "&gt;"
     else if b = 34 then T "&quot;" else [b]) ++ xmlEscape rest

/-- Replace the four entities by their characters; the first argument counts
code units of an entity still to be skipped. -/
def xmlUnescape : Nat → List Byte → List Byte
  | _, [] => []
  | skip + 1, _ :: rest => xmlUnescape skip rest
  | 0, b :: rest =>
    if (b :: rest).take 5 = T "&amp;" then 38 :: xmlUnescape 4 rest
    else if (b :: rest).take 4 = T "&lt;" then 60 :: xmlUnescape 3 rest
    else if (b :: rest).take 4 = T "&gt;" then 62 :: xmlUnescape 3 rest
    else if (b :: rest).take 6 = T "&quot;" then 34 :: xmlUnescape 5 rest
    else b :: xmlUnescape 0 rest

/-- Text of the attributes of a start tag. -/
def xmlAttributesText : List (JString × JString) → List Byte
  | [] => []
  | (n, v) :: rest => [32] ++ n ++ [61, 34] ++ xmlEscape v ++ [34] ++ xmlAttributesText rest

/-- Serialized form of an element, on one line and without a header. -/
def xmlElementText : XmlElement → List Byte
  | .mk tag attrs children =>
    if tag = [] then
      xmlEscape ((XmlElement.mk tag attrs []).getStringAttribute (T "text"))
    else if children.isEmpty then [60] ++ tag ++ xmlAttributesText attrs ++ [47, 62]
    else
      [60] ++ tag ++ xmlAttributesText attrs ++ [62] ++ childrenText children
        ++ [60, 47] ++ tag ++ [62]
where
  /-- Serialized form of a list of children. -/
  childrenText : List XmlElement → List Byte
    | [] => []
    | c :: cs => xmlElementText c ++ childrenText cs

/-- The header written in front of a document. -/
def xmlHeader : List Byte := [60, 63] ++ T "xml version=" ++ [34] ++ T "1.0" ++ [34]
  ++ T " encoding=" ++ [34] ++ T "UTF-8" ++ [34, 63, 62, 32]

/-- The pieces a document is read as. -/
inductive XmlToken where
  | startTag (tag : JString) (attributes : List (JString × JString))
  | emptyTag (tag : JString) (attributes : List (JString × JString))
  | endTag (tag : JString)
  | text (characters : JString)

/-- Skip a `<?...?>` header: the input after the first `?>`. -/
def xmlAfterHeader : List Byte → List Byte
  | [] => []
  | a :: rest =>
    match rest with
    | [] => []
    | b :: rest2 => if a = 63 ∧ b = 62 then rest2 else xmlAfterHeader rest

/-- Skip white space and an optional header in front of the outer element. -/
def xmlSkipProlog (s : List Byte) : List Byte :=
  let s := s.dropWhile isXmlSpace
  if s.take 2 = [60, 63] then (xmlAfterHeader s).dropWhile isXmlSpace else s

/-- Read the attributes of a tag up to its closing `>` or `/>`; the result is
the attributes, whether the tag was closed by `/>`, and the input after it. -/
def xmlReadAttributes : Nat → List Byte → List (JString × JString) →
    Option (List (JString × JString) × Bool × List Byte)
  | 0, _, _ => Option.none
  | fuel + 1, s, acc =>
    let s := s.dropWhile isXmlSpace
    if s.take 2 = [47, 62] then some (acc, true, s.drop 2)
    else if s.take 1 = [62] then some (acc, false, s.drop 1)
    else
      let name := s.takeWhile isXmlNameChar
      let s := (s.dropWhile isXmlNameChar).dropWhile isXmlSpace
      if name = [] ∨ s.take 1 ≠ [61] then Option.none
      else
        let s := (s.drop 1).dropWhile isXmlSpace
        if s.take 1 ≠ [34] then Option.none
        else
          let value := (s.drop 1).takeWhile (fun b => decide (b ≠ 34))
          let s := (s.drop 1).dropWhile (fun b => decide (b ≠ 34))
          if s.take 1 ≠ [34] then Option.none
          else xmlReadAttributes fuel (s.drop 1) (acc ++ [(name, xmlUnescape 0 value)])

/-- Read one token from the front of the input. -/
def xmlReadToken (s : List Byte) : Option (XmlToken × List Byte) :=
  if s.take 2 = [60, 47] then
    let name := (s.drop 2).takeWhile isXmlNameChar
    let rest := ((s.drop 2).dropWhile isXmlNameChar).dropWhile isXmlSpace
    if name = [] ∨ rest.take 1 ≠ [62] then Option.none
    else some (.endTag name, rest.drop 1)
  else if s.take 1 = [60] then
    let name := (s.drop 1).takeWhile isXmlNameChar
    if name = [] then Option.none
    else
      match xmlReadAttributes s.length ((s.drop 1).dropWhile isXmlNameChar) [] with
      | Option.none => Option.none
      | some (attrs, true, rest) => some (.emptyTag name attrs, rest)
      | some (attrs, false, rest) => some (.startTag name attrs, rest)
  else
    some (.text (xmlUnescape 0 (s.takeWhile (fun b => decide (b ≠ 60)))),
      s.dropWhile (fun b => decide (b ≠ 60)))

/-- Split the input into tokens. -/
def xmlTokens : Nat → List Byte → Option (List XmlToken)
  | 0, _ => Option.none
  | fuel + 1, s =>
    if s.isEmpty then some []
    else
      match xmlReadToken s with
      | Option.none => Option.none
      | some (t, rest) =>
        match xmlTokens fuel rest with
        | Option.none => Option.none
        | some ts => some (t :: ts)

/-- An element under construction: its tag, its attributes and the children
read so far, latest first. -/
structure XmlFrame where
  tag : JString
  attributes : List (JString × JString)
  children : List XmlElement

/-- The state of the tree builder: the open elements, innermost first, the
finished outer element, and whether the input was rejected. -/
structure XmlBuilder where
  stack : List XmlFrame
  root : Option XmlElement
  failed : Bool

/-- Hand a finished element to its parent, or make it the outer element. -/
def XmlBuilder.finish (b : XmlBuilder) (e : XmlElement) : XmlBuilder :=
  match b.stack with
  | [] => if b.root.isSome then { b with failed := true } else { b with root := some e }
  | top :: below => { b with stack := { top with children := e :: top.children } :: below }

/-- Process one token. -/
def XmlBuilder.step (b : XmlBuilder) : XmlToken → XmlBuilder
  | .startTag tag attrs =>
    if b.stack.isEmpty ∧ b.root.isSome then { b with failed := true }
    else { b with stack := ⟨tag, attrs, []⟩ :: b.stack }
  | .emptyTag tag attrs => b.finish (.mk tag attrs [])
  | .endTag tag =>
    match b.stack with
    | [] => { b with failed := true }
    | top :: below =>
      if top.tag = tag then
        XmlBuilder.finish { b with stack := below } (.mk top.tag top.attributes top.children.reverse)
      else { b with failed := true }
  | .text characters =>
    if characters.all isXmlSpace then b
    else
      match b.stack with
      | [] => { b with failed := true }
      | _ :: _ => b.finish (.mk [] [(T "text", characters)] [])

/-- Modelled from the spec: the document parser. With `outerOnly` it reads the
start tag of the outer element and nothing after it. -/
def refGetDocumentElement (outerOnly : Bool) (s : List Byte) : Option XmlElement :=
  let body := xmlSkipProlog s
  if outerOnly then
    match xmlReadToken body with
    | some (.startTag tag attrs, _) => some (.mk tag attrs [])
    | some (.emptyTag tag attrs, _) => some (.mk tag attrs [])
    | _ => Option.none
  else
    match xmlTokens (body.length + 1) body with
    | Option.none => Option.none
    | some tokens =>
      let b := tokens.foldl XmlBuilder.step ⟨[], Option.none, false⟩
      if b.failed ∨ ¬ b.stack.isEmpty then Option.none else b.root

/-- The reference platform. -/
def refPlatform : Platform where
  getParentDirectory := refParentDirectory
  getNonexistentSibling := refNonexistentSibling
  compress := refCompress
  decompress := refDecompress
  getDocumentElement := refGetDocumentElement
  createDocument := xmlElementText
  documentText := fun doc => xmlHeader ++ xmlElementText doc

/-! ## Time -/

/-- The timer thread at work: every callback that falls due up to time `t` is
delivered at its due time, the timer having been set to its next period just
before; then the clock is set to `t`. The first argument bounds the number of
callbacks. -/
def deliverCallbacks (P : Platform) (fl : Int → Faults) (t : Int) :
    Nat → PropertiesFile × World → PropertiesFile × World
  | 0, sw => (sw.1, { sw.2 with now := t })
  | fuel + 1, sw =>
    if 0 < sw.1.timer.periodMs ∧ sw.1.timer.due ≤ t then
      let due := sw.1.timer.due
      let s : PropertiesFile := { sw.1 with timer := ⟨sw.1.timer.periodMs, due + sw.1.timer.periodMs⟩ }
      deliverCallbacks P fl t fuel (s.timerCallback P (fl due) { sw.2 with now := due })
    else (sw.1, { sw.2 with now := t })

/-- Let time pass until `t`. A running timer has a period of at least one
millisecond and a callback never restarts it, so the callbacks up to `t` are
fewer than the bound passed here. -/
def elapseTo (P : Platform) (fl : Int → Faults) (t : Int) (sw : PropertiesFile × World) :
    PropertiesFile × World :=
  deliverCallbacks P fl t ((t - sw.1.timer.due).toNat + 2) sw

/-- A mutation `set (key, value)` issued at a given time. -/
def mutateAt (P : Platform) (fl : Int → Faults) (sw : PropertiesFile × World)
    (m : Int × JString × JString) : PropertiesFile × World :=
  let sw := elapseTo P fl m.1 sw
  PropertiesFile.setValue P (fl m.1) sw.1 sw.2 m.2.1 m.2.2

/-- A sequence of timed mutations, in order. -/
def runMutations (P : Platform) (fl : Int → Faults) (sw : PropertiesFile × World)
    (ms : List (Int × JString × JString)) : PropertiesFile × World :=
  ms.foldl (mutateAt P fl) sw

/-- Number of calls of `save` recorded so far. -/
def saveCount (w : World) : Nat := w.trace.count Event.saveCalled

/-! ## Predicates used in the statements -/

/-- The entries a store can hold and a stream can carry: no key is empty,
no two keys are equal under the case-insensitive comparison, and the number of
entries and the length of every string fit a C++ `int`. -/
def Storable (entries : List (JString × JString)) : Prop :=
  (∀ e ∈ entries, e.1 ≠ []) ∧
  entries.Pairwise (fun a b => keyMatches true a.1 b.1 = false) ∧
  entries.length < 2147483648 ∧
  ∀ e ∈ entries, e.1.length < 2147483648 ∧ e.2.length < 2147483648

instance (entries : List (JString × JString)) : Decidable (Storable entries) := by
  unfold Storable
  infer_instance

/-- No key is empty and no two keys are equal under the case-insensitive
comparison. -/
def UniqueKeys (entries : List (JString × JString)) : Prop :=
  (∀ e ∈ entries, e.1 ≠ []) ∧
  entries.Pairwise (fun a b => keyMatches true a.1 b.1 = false)

instance (entries : List (JString × JString)) : Decidable (UniqueKeys entries) := by
  unfold UniqueKeys
  infer_instance

/-- A value that either does not parse as an XML document, or is the
serialized form of the element it parses to. -/
def Canonical (P : Platform) (value : JString) : Prop :=
  match P.getDocumentElement false value with
  | some child => P.createDocument child = value
  | Option.none => True

instance (P : Platform) (value : JString) : Decidable (Canonical P value) := by
  unfold Canonical
  split <;> infer_instance

/-- The value a fresh store holds for a value that was saved in the XML
format: the serialized form of the element the value parses to, or the value
itself when it does not parse as an XML document. -/
def xmlLoadedValue (P : Platform) (value : JString) : JString :=
  match P.getDocumentElement false value with
  | some child => P.createDocument child
  | Option.none => value

/-- The XML library reads back the document it has written: the text does not
start with one of the two magic numbers, its outer element is found with the
tag it was given, and the full parse returns the document. -/
def ReadsBack (P : Platform) (doc : XmlElement) : Prop :=
  (readInt (P.documentText doc)).1 ≠ propFileMagicNumber ∧
  (readInt (P.documentText doc)).1 ≠ propFileMagicNumberCompressed ∧
  (∃ outer, P.getDocumentElement true (P.documentText doc) = some outer ∧
    outer.hasTagName doc.tagName = true) ∧
  P.getDocumentElement false (P.documentText doc) = some doc

/-- The option flags select the plain binary format and no other (the first
disjunct of the assertion at source lines 60 to 62). -/
def IsBinary (options : Nat) : Prop :=
  options &&& (storeAsBinary ||| storeAsCompressedBinary ||| storeAsXML) = storeAsBinary

/-- The option flags select the compressed binary format and no other. -/
def IsCompressedBinary (options : Nat) : Prop :=
  options &&& (storeAsBinary ||| storeAsCompressedBinary ||| storeAsXML)
    = storeAsCompressedBinary

/-- The option flags select the XML format and no other. -/
def IsXml (options : Nat) : Prop :=
  options &&& (storeAsBinary ||| storeAsCompressedBinary ||| storeAsXML) = storeAsXML

instance (options : Nat) : Decidable (IsBinary options) := by
  unfold IsBinary
  infer_instance

instance (options : Nat) : Decidable (IsCompressedBinary options) := by
  unfold IsCompressedBinary
  infer_instance

instance (options : Nat) : Decidable (IsXml options) := by
  unfold IsXml
  infer_instance

/-! ## The steps of `save` -/

/-- The world in which `save` writes: the call is recorded and the parent
directory exists. -/
def saveWorld (P : Platform) (fl : Faults) (this : PropertiesFile) (w : World) : World :=
  ((w.log .saveCalled).createDirectory fl (P.getParentDirectory this.file)).2

/-- The temporary file `save` writes in the binary formats. -/
def saveTempFile (P : Platform) (fl : Faults) (this : PropertiesFile) (w : World) : File :=
  P.getNonexistentSibling (saveWorld P fl this w) this.file

/-- The world once the temporary file has been written and closed. -/
def writtenWorld (P : Platform) (fl : Faults) (this : PropertiesFile) (w : World) : World :=
  (((saveWorld P fl this w).setFile (saveTempFile P fl this w) (some [])).log
      (.openedForWriting (saveTempFile P fl this w))).write (saveTempFile P fl this w)
    (binaryFileContent P this.options this.properties)

/-! ## Bursts of mutations -/

/-- The time of the last mutation of a sequence that follows one at time `t`. -/
def lastTime (t : Int) : List (Int × JString × JString) → Int
  | [] => t
  | m :: rest => lastTime m.1 rest

/-- The state between two mutations of a burst: the timer is due one interval
after the last mutation, the store has unsaved changes, and nothing has been
saved since the burst began. -/
def Pending (d t : Int) (c : Nat) (sw : PropertiesFile × World) : Prop :=
  sw.1.timer = ⟨d, t + d⟩ ∧ sw.1.needsWriting = true ∧ sw.1.timerInterval = d
    ∧ saveCount sw.2 = c

/-! ## Reachable states -/

/-- Modelled from the spec: `StringPairArray::remove`, which drops the entry
with a matching key. -/
def StringPairArray.remove (a : StringPairArray) (key : JString) : StringPairArray :=
  { a with entries := a.entries.filter (fun e => !keyMatches a.ignoreCase e.1 key) }

/-- Modelled from the spec: the mutation `remove` of the store: it updates the
mapping and then notifies through `propertyChanged`. -/
def PropertiesFile.removeValue (P : Platform) (fl : Faults) (this : PropertiesFile)
    (w : World) (key : JString) : PropertiesFile × World :=
  PropertiesFile.propertyChanged P fl
    { this with properties := this.properties.remove key } w

/-- One callback of a running timer, as the timer thread delivers it: the
timer is set to its next period, then `timerCallback` runs. A stopped timer
delivers nothing. -/
def fireTimer (P : Platform) (fl : Faults) (sw : PropertiesFile × World) :
    PropertiesFile × World :=
  if 0 < sw.1.timer.periodMs then
    PropertiesFile.timerCallback P fl
      { sw.1 with timer := ⟨sw.1.timer.periodMs, sw.1.timer.due + sw.1.timer.periodMs⟩ } sw.2
  else sw

/-- What can happen to a store after its construction: a mutation, an
explicit `save` or `saveIfNeeded`, one firing of the timer, time passing with
the timer thread at work, and any change of the surroundings made by others. -/
inductive Operation where
  | set (key value : JString)
  | remove (key : JString)
  | save
  | saveIfNeeded
  | timerFires
  | elapse (faultsAt : Int → Faults) (t : Int)
  | surroundings (w : World)

/-- The effect of one operation, with the fault outcomes in force during it. -/
def perform (P : Platform) (sw : PropertiesFile × World) (op : Faults × Operation) :
    PropertiesFile × World :=
  match op.2 with
  | .set key value => PropertiesFile.setValue P op.1 sw.1 sw.2 key value
  | .remove key => PropertiesFile.removeValue P op.1 sw.1 sw.2 key
  | .save => (sw.1.save P op.1 sw.2).2
  | .saveIfNeeded => (sw.1.saveIfNeeded P op.1 sw.2).2
  | .timerFires => fireTimer P op.1 sw
  | .elapse faultsAt t => elapseTo P faultsAt t sw
  | .surroundings w => (sw.1, w)

/-- The state reached from the construction of a store on `f` in the world
`w` by a sequence of operations. -/
def reach (P : Platform) (fl : Faults) (w : World) (f : File)
    (millisecondsBeforeSaving : Int) (options_ : Nat) (ops : List (Faults × Operation)) :
    PropertiesFile × World :=
  ops.foldl (perform P) (PropertiesFile.new P fl w f millisecondsBeforeSaving options_, w)

/-- The invariant of the scheduler: the timer runs only while the store has
unsaved changes, and never when the interval is zero or negative. -/
def TimerInvariant (s : PropertiesFile) : Prop :=
  (s.isTimerRunning = true → s.needsWriting = true)
  ∧ (s.timerInterval ≤ 0 → s.isTimerRunning = false)

/-! ## Example stores and worlds -/

/-- A world with no files, one directory `/tmp`, and the clock at 0. -/
def emptyWorld : World :=
  { files := fun _ => Option.none
    directories := fun f => decide (f = ⟨T "/tmp"⟩)
    now := 0
    trace := [] }

/-- The path used in the examples. -/
def exampleFile : File := ⟨T "/tmp/app.settings"⟩

/-- A store over `exampleFile` with unsaved changes, the given option flags,
autosave interval and entries. -/
def exampleStore (options : Nat) (interval : Int) (entries : List (JString × JString)) :
    PropertiesFile :=
  { properties := ⟨entries, true⟩
    file := exampleFile
    timerInterval := interval
    options := options
    needsWriting := true
    timer := ⟨0, 0⟩
    changeMessages := 0 }

/-- Entries used in the examples; the second value is empty. -/
def exampleEntries : List (JString × JString) :=
  [(T "volume", T "11"), (T "theme", T "")]

/-- Entries whose values are plain text or markup in serialized form. -/
def exampleXmlEntries : List (JString × JString) :=
  [(T "volume", T "11"), (T "markup", T "<a>1</a>"), (T "quote", T "a<b")]

/-- One entry whose value is a well-formed document that is not in the form
the writer produces. -/
def nonCanonicalEntries : List (JString × JString) :=
  [(T "markup", T "<a></a>")]

/-- A well-formed document with another outer tag than the store writes. -/
def foreignDocument : List Byte :=
  refPlatform.documentText
    (XmlElement.mk (T "SETTINGS") [] [xmlEntry refPlatform (T "volume") (T "11")])

/-- The first of two calls of `saveIfNeeded` on a store configured for XML
that has unsaved changes. -/
def xmlFirstSave : Bool × PropertiesFile × World :=
  (exampleStore storeAsXML (-1) exampleEntries).saveIfNeeded refPlatform Faults.none emptyWorld

/-- The second call, on the store and the world the first call left. -/
def xmlSecondSave : Bool × PropertiesFile × World :=
  xmlFirstSave.2.1.saveIfNeeded refPlatform Faults.none xmlFirstSave.2.2

/-- A store constructed without the flag `ignoreCaseOfKeyNames` on a path
where no file exists; autosave is disabled. -/
def plainStore : PropertiesFile :=
  PropertiesFile.new refPlatform Faults.none emptyWorld exampleFile (-1) storeAsBinary

/-- The store `plainStore` after `set ("Name", "Ann")`. -/
def afterAnn : PropertiesFile × World :=
  PropertiesFile.setValue refPlatform Faults.none plainStore emptyWorld (T "Name") (T "Ann")

/-- The store `afterAnn` after `set ("name", "Bob")`. -/
def afterBob : PropertiesFile × World :=
  PropertiesFile.setValue refPlatform Faults.none afterAnn.1 afterAnn.2 (T "name") (T "Bob")

/-- A burst of three mutations at 0, 100 and 450 milliseconds. -/
def exampleBurst : List (Int × JString × JString) :=
  [(100, T "volume", T "9"), (450, T "theme", T "dark")]

/-- A store with an autosave interval of 500 milliseconds, in an empty world. -/
def debouncedStore : PropertiesFile × World :=
  (PropertiesFile.new refPlatform Faults.none emptyWorld exampleFile 500 storeAsBinary,
    emptyWorld)

/-- A mapping with one entry. -/
def cutEntries : List (JString × JString) := [(T "k", T "value")]

/-- The binary file of `cutEntries` with its last two bytes missing. -/
def cutFile : List Byte :=
  (writeInt propFileMagicNumber ++ writeValues ⟨cutEntries, true⟩).dropLast.dropLast

/-- A binary file that announces two pairs: one with an empty key, then the
pair `k`, `v`. -/
def emptyKeyFile : List Byte :=
  writeInt propFileMagicNumber ++ writeInt 2 ++ writeString [] ++ writeString (T "x")
    ++ writeString (T "k") ++ writeString (T "v")

/-- The binary file of `exampleEntries` cut after its first pair. -/
def boundaryCutFile : List Byte :=
  writeInt propFileMagicNumber
    ++ (writeInt (exampleEntries.length : Int) ++ writePairs (exampleEntries.take 1))

/-- One mutation on a store with an autosave interval of 500 milliseconds. -/
def oneMutation : List (Faults × Operation) :=
  [(Faults.none, Operation.set (T "volume") (T "9"))]

/-- Entries of three kinds: plain text, a well-formed document that is not in
the form the writer produces, and a document in that form. -/
def mixedXmlEntries : List (JString × JString) :=
  [(T "volume", T "11"), (T "markup", T "<a></a>"), (T "nested", T "<a>1</a>")]

theorem toInt32_of_nonneg (v : Int) (h0 : 0 ≤ v) (h1 : v < 2147483648) :
    toInt32 (v % 4294967296).toNat = v := by
  have hv : v % 4294967296 = v := Int.emod_eq_of_lt h0 (by omega)
  rw [hv]
  unfold toInt32
  have hu : (v.toNat : Int) = v := Int.toNat_of_nonneg h0
  have hlt : v.toNat % 4294967296 = v.toNat := Nat.mod_eq_of_lt (by omega)
  rw [hlt]
  split
  · exact hu
  · omega

theorem littleEndianInt_bytes (u : Nat) (hu : u < 4294967296) :
    littleEndianInt [Fin.ofNat u, Fin.ofNat (u / 256), Fin.ofNat (u / 65536),
      Fin.ofNat (u / 16777216)] = u := by
  simp only [littleEndianInt, List.getD_cons_zero, List.getD_cons_succ, Fin.ofNat]
  omega

theorem readInt_writeInt (v : Int) (rest : List Byte) (h0 : 0 ≤ v) (h1 : v < 2147483648) :
    readInt (writeInt v ++ rest) = (v, rest) := by
  have hu : (v % 4294967296).toNat < 4294967296 := by omega
  simp only [writeInt, readInt, List.cons_append, List.nil_append]
  rw [littleEndianInt_bytes _ hu]
  have := toInt32_of_nonneg v h0 h1
  have hmod : (v % 4294967296).toNat % 4294967296 = (v % 4294967296).toNat :=
    Nat.mod_eq_of_lt hu
  have h2 : toInt32 ((v % 4294967296).toNat) = v := this
  rw [h2]

theorem readString_writeString (s : JString) (rest : List Byte) (h : s.length < 2147483648) :
    readString (writeString s ++ rest) = (s, rest) := by
  unfold readString writeString
  rw [List.append_assoc, readInt_writeInt _ _ (by omega) (by omega)]
  simp


theorem wrapInt_of_nonneg (v : Int) (h0 : 0 ≤ v) (h1 : v < 2147483648) : wrapInt v = v :=
  toInt32_of_nonneg v h0 h1

theorem wrapInt_neg_one : wrapInt (0 - 1) = -1 := by decide

theorem setEntry_append (ic : Bool) (pre : List (JString × JString)) (k v : JString)
    (h : ∀ e ∈ pre, keyMatches ic e.1 k = false) :
    setEntry ic pre k v = pre ++ [(k, v)] := by
  induction pre with
  | nil => rfl
  | cons e tl ih =>
    obtain ⟨ek, ev⟩ := e
    have h1 : keyMatches ic ek k = false := h (ek, ev) (List.mem_cons_self _ _)
    simp only [setEntry, h1, List.cons_append]
    rw [ih (fun e he => h e (List.mem_cons_of_mem _ he))]
    simp

theorem writeString_ne_nil (s : JString) (rest : List Byte) :
    isExhausted (writeString s ++ rest) = false := by
  simp [isExhausted, writeString, writeInt]

theorem length_le_writePairs (es : List (JString × JString)) :
    es.length ≤ (writePairs es).length := by
  induction es with
  | nil => simp [writePairs]
  | cons e tl ih =>
    obtain ⟨k, v⟩ := e
    simp only [writePairs, List.length_cons, List.length_append, writeString, writeInt]
    simp only [List.length_cons, List.length_nil]
    omega

theorem readValues_writePairs (ic : Bool) (es : List (JString × JString)) :
    ∀ (fuel : Nat) (pre : List (JString × JString)),
      es.length ≤ fuel →
      (∀ e ∈ es, e.1 ≠ [] ∧ e.1.length < 2147483648 ∧ e.2.length < 2147483648) →
      es.length < 2147483648 →
      (pre ++ es).Pairwise (fun a b => keyMatches ic a.1 b.1 = false) →
      readValues fuel (es.length : Int) (writePairs es) ⟨pre, ic⟩ = ⟨pre ++ es, ic⟩ := by
  induction es with
  | nil =>
    intro fuel pre _ _ _ _
    cases fuel with
    | zero => simp [readValues]
    | succ f =>
      simp only [readValues, List.length_nil, Nat.cast_zero, wrapInt_neg_one]
      simp
  | cons e tl ih =>
    intro fuel pre hfuel hes hlen hpw
    obtain ⟨k, v⟩ := e
    cases fuel with
    | zero => simp at hfuel
    | succ f =>
      have hk := hes (k, v) (List.mem_cons_self _ _)
      have hcount : wrapInt (((((k, v) :: tl).length : Nat) : Int) - 1) = (tl.length : Int) := by
        have : ((((k, v) :: tl).length : Nat) : Int) - 1 = (tl.length : Int) := by
          simp
        rw [this]
        apply wrapInt_of_nonneg
        · omega
        · simp only [List.length_cons] at hlen
          omega
      have hpre : ∀ e ∈ pre, keyMatches ic e.1 k = false := by
        intro e he
        rw [List.pairwise_append] at hpw
        exact hpw.2.2 e he (k, v) (List.mem_cons_self _ _)
      have hpw2 : ((pre ++ [(k, v)]) ++ tl).Pairwise
          (fun a b => keyMatches ic a.1 b.1 = false) := by
        simpa using hpw
      have ih2 := ih f (pre ++ [(k, v)]) (by simpa using hfuel)
        (fun e he => hes e (List.mem_cons_of_mem _ he))
        (by simp only [List.length_cons] at hlen; omega) hpw2
      rw [readValues]
      simp only [hcount]
      simp only [writePairs, List.append_assoc, writeString_ne_nil,
        readString_writeString _ _ hk.2.1, readString_writeString _ _ hk.2.2]
      simp only [Nat.cast_nonneg, and_self, if_true, ne_eq, hk.1, not_false_eq_true,
        StringPairArray.set, setEntry_append ic pre k v hpre]
      rw [ih2]
      simp


theorem magic_eq : propFileMagicNumber = 1347375696 := by decide

theorem magicCompressed_eq : propFileMagicNumberCompressed = 1347571779 := by decide

theorem options_of_isBinary (o : Nat) (h : IsBinary o) :
    o &&& storeAsXML = 0 ∧ o &&& storeAsCompressedBinary = 0 := by
  unfold IsBinary at h
  constructor
  · have : o &&& storeAsXML
        = (o &&& (storeAsBinary ||| storeAsCompressedBinary ||| storeAsXML)) &&& storeAsXML := by
      rw [Nat.land_assoc]; rfl
    rw [this, h]; rfl
  · have : o &&& storeAsCompressedBinary
        = (o &&& (storeAsBinary ||| storeAsCompressedBinary ||| storeAsXML))
            &&& storeAsCompressedBinary := by
      rw [Nat.land_assoc]; rfl
    rw [this, h]; rfl

theorem options_of_isCompressedBinary (o : Nat) (h : IsCompressedBinary o) :
    o &&& storeAsXML = 0 ∧ o &&& storeAsCompressedBinary ≠ 0 := by
  unfold IsCompressedBinary at h
  constructor
  · have : o &&& storeAsXML
        = (o &&& (storeAsBinary ||| storeAsCompressedBinary ||| storeAsXML)) &&& storeAsXML := by
      rw [Nat.land_assoc]; rfl
    rw [this, h]; rfl
  · have : o &&& storeAsCompressedBinary
        = (o &&& (storeAsBinary ||| storeAsCompressedBinary ||| storeAsXML))
            &&& storeAsCompressedBinary := by
      rw [Nat.land_assoc]; rfl
    rw [this, h]; decide

theorem options_of_isXml (o : Nat) (h : IsXml o) : o &&& storeAsXML ≠ 0 := by
  unfold IsXml at h
  have : o &&& storeAsXML
      = (o &&& (storeAsBinary ||| storeAsCompressedBinary ||| storeAsXML)) &&& storeAsXML := by
    rw [Nat.land_assoc]; rfl
  rw [this, h]; decide

/-- A successful save in one of the binary formats leaves the encoded mapping
at the target path and clears the flag. -/
theorem save_binary_success (P : Platform) (fl : Faults) (this : PropertiesFile) (w : World)
    (hx : this.options &&& storeAsXML = 0) (h : (this.save P fl w).1 = true) :
    (this.save P fl w).2.2.files this.file
        = some (binaryFileContent P this.options this.properties)
      ∧ (this.save P fl w).2.1.needsWriting = false := by
  by_cases h1 : this.file = File.nonexistent ∨ (w.log .saveCalled).isDirectory this.file = true
  · simp [PropertiesFile.save, PropertiesFile.stopTimer, h1] at h
  by_cases h2 : ((w.log .saveCalled).createDirectory fl (P.getParentDirectory this.file)).1 = false
  · simp [PropertiesFile.save, PropertiesFile.stopTimer, h1, h2] at h
  simp only [PropertiesFile.save, PropertiesFile.stopTimer, PropertiesFile.getAllProperties,
    h1, h2, hx, if_false, ne_eq, not_true_eq_false] at h ⊢
  generalize ((w.log Event.saveCalled).createDirectory fl (P.getParentDirectory this.file)).2
    = w1 at h ⊢
  generalize P.getNonexistentSibling w1 this.file = temp at h ⊢
  cases hco : fl.createOutputStreamOk
  · simp [World.createOutputStream, hco] at h
  cases hmv : fl.moveFileOk
  · simp [World.createOutputStream, World.moveFileTo, hco, hmv] at h
  by_cases hst : temp = this.file
  · simp [World.createOutputStream, World.moveFileTo, World.write, World.setFile, World.log,
      hco, hmv, hst]
  · have hst2 : ¬ this.file = temp := fun e => hst e.symm
    simp [World.createOutputStream, World.moveFileTo, World.write, World.setFile, World.log,
      hco, hmv, hst, hst2]


theorem readValues_writeValues (es : List (JString × JString)) (hst : Storable es) :
    readValues (writePairs es).length (es.length : Int) (writePairs es) ⟨[], true⟩
      = ⟨es, true⟩ := by
  obtain ⟨hne, hpw, hlen, hsz⟩ := hst
  have := readValues_writePairs true es (writePairs es).length [] (length_le_writePairs es)
    (fun e he => ⟨hne e he, hsz e he⟩) hlen (by simpa using hpw)
  simpa using this

/-- Loading a file that holds the plain binary encoding of storable entries
yields those entries. -/
theorem new_of_binary_content (P : Platform) (fl : Faults) (w : World) (f : File)
    (ms : Int) (opts : Nat) (props : StringPairArray) (hst : Storable props.entries)
    (hfile : w.createInputStream fl f
      = some (writeInt propFileMagicNumber ++ writeValues props)) :
    (PropertiesFile.new P fl w f ms opts).properties = ⟨props.entries, true⟩ := by
  have hm : readInt (writeInt propFileMagicNumber ++ writeValues props)
      = (propFileMagicNumber, writeValues props) :=
    readInt_writeInt _ _ (by rw [magic_eq]; decide) (by rw [magic_eq]; decide)
  have hne : ¬ propFileMagicNumber = propFileMagicNumberCompressed := by decide
  have hcount : readInt (writeValues props) = ((props.entries.length : Int), writePairs props.entries) := by
    unfold writeValues StringPairArray.size
    exact readInt_writeInt _ _ (by omega) (by have := hst.2.2.1; omega)
  unfold PropertiesFile.new
  simp only [hfile, hm, hne, decide_False, if_false, Bool.false_eq_true, if_true, hcount,
    PropertiesFile.getAllProperties]
  rw [show decide (ignoreCaseOfKeyNames ≠ 0) = true by decide]
  exact readValues_writeValues _ hst

/-- Loading a file that holds the compressed encoding of storable entries
yields those entries, when decompression undoes the compression of them. -/
theorem new_of_compressed_content (P : Platform) (fl : Faults) (w : World) (f : File)
    (ms : Int) (opts : Nat) (props : StringPairArray) (hst : Storable props.entries)
    (hinv : P.decompress (P.compress (writeValues props)) = writeValues props)
    (hfile : w.createInputStream fl f
      = some (writeInt propFileMagicNumberCompressed ++ P.compress (writeValues props))) :
    (PropertiesFile.new P fl w f ms opts).properties = ⟨props.entries, true⟩ := by
  have hm : readInt (writeInt propFileMagicNumberCompressed ++ P.compress (writeValues props))
      = (propFileMagicNumberCompressed, P.compress (writeValues props)) :=
    readInt_writeInt _ _ (by rw [magicCompressed_eq]; decide) (by rw [magicCompressed_eq]; decide)
  have hdrop : (writeInt propFileMagicNumberCompressed ++ P.compress (writeValues props)).drop 4
      = P.compress (writeValues props) := by
    simp [writeInt]
  have hcount : readInt (writeValues props) = ((props.entries.length : Int), writePairs props.entries) := by
    unfold writeValues StringPairArray.size
    exact readInt_writeInt _ _ (by omega) (by have := hst.2.2.1; omega)
  unfold PropertiesFile.new
  simp only [hfile, hm, decide_True, if_true, hdrop, hinv, hcount,
    PropertiesFile.getAllProperties]
  rw [show decide (ignoreCaseOfKeyNames ≠ 0) = true by decide]
  exact readValues_writeValues _ hst

/-- C1. Binary round trip: a store configured for the binary format whose
entries are storable (keys not empty and pairwise different under the
comparison of the store, sizes within an `int`) is saved successfully; a
fresh store, constructed on the same path with any interval and options, then
holds exactly the same entries in the same order. -/
theorem binary_round_trip (P : Platform) (fl fl2 : Faults) (this : PropertiesFile)
    (w : World) (millisecondsBeforeSaving : Int) (options_ : Nat)
    (hfmt : IsBinary this.options)
    (hst : Storable this.properties.entries)
    (hsave : (this.save P fl w).1 = true)
    (hread : fl2.createInputStreamOk = true) :
    (PropertiesFile.new P fl2 (this.save P fl w).2.2 this.file millisecondsBeforeSaving
        options_).getAllProperties.entries
      = this.getAllProperties.entries := by
  obtain ⟨hx, hc⟩ := options_of_isBinary _ hfmt
  have hfile := (save_binary_success P fl this w hx hsave).1
  have hcontent : (this.save P fl w).2.2.createInputStream fl2 this.file
      = some (writeInt propFileMagicNumber ++ writeValues this.properties) := by
    simp [World.createInputStream, hread, hfile, binaryFileContent, hc]
  have := new_of_binary_content P fl2 _ this.file millisecondsBeforeSaving options_
    this.properties hst hcontent
  simp [PropertiesFile.getAllProperties, this]


theorem binary_round_trip_witness :
    (PropertiesFile.new refPlatform Faults.none
        ((exampleStore storeAsBinary (-1) exampleEntries).save refPlatform Faults.none
          emptyWorld).2.2 exampleFile 0 storeAsXML).getAllProperties.entries
      = exampleEntries :=
  binary_round_trip refPlatform Faults.none Faults.none
    (exampleStore storeAsBinary (-1) exampleEntries) emptyWorld 0 storeAsXML
    (by decide) (by decide) (by decide) (by decide)


/-! ## The XML format -/

theorem xmlDocument_fold (P : Platform) (es : List (JString × JString)) :
    ∀ (tag : JString) (attrs : List (JString × JString)) (cs : List XmlElement),
      es.foldl (fun doc kv => doc.addChildElement (xmlEntry P kv.1 kv.2))
          (XmlElement.mk tag attrs cs)
        = XmlElement.mk tag attrs (cs ++ es.map (fun kv => xmlEntry P kv.1 kv.2)) := by
  induction es with
  | nil => intro tag attrs cs; simp
  | cons e tl ih =>
    intro tag attrs cs
    rw [List.foldl_cons]
    have hstep : (XmlElement.mk tag attrs cs).addChildElement (xmlEntry P e.1 e.2)
        = XmlElement.mk tag attrs (cs ++ [xmlEntry P e.1 e.2]) := rfl
    rw [hstep, ih]
    simp

theorem xmlDocument_eq (P : Platform) (props : StringPairArray) :
    xmlDocument P props
      = XmlElement.mk propertyFileXmlTag [] (props.entries.map (fun kv => xmlEntry P kv.1 kv.2)) := by
  unfold xmlDocument XmlElement.new
  rw [xmlDocument_fold]
  simp

theorem name_ne_val : ¬ T "name" = T "val" := by decide

theorem xmlEntry_hasTagName (P : Platform) (k v : JString) :
    (xmlEntry P k v).hasTagName propertyTagName = true := by
  unfold xmlEntry
  cases P.getDocumentElement false v <;>
    simp [XmlElement.hasTagName, XmlElement.setAttribute, XmlElement.addChildElement,
      XmlElement.new, XmlElement.tagName]

theorem xmlEntry_name (P : Platform) (k v : JString) :
    (xmlEntry P k v).getStringAttribute (T "name") = k := by
  unfold xmlEntry
  cases P.getDocumentElement false v <;>
    simp [XmlElement.getStringAttribute, XmlElement.setAttribute, XmlElement.addChildElement,
      XmlElement.new, XmlElement.tagName, XmlElement.attributes, XmlElement.children,
      setEntry, keyMatches, name_ne_val]

theorem xmlEntry_value (P : Platform) (k v : JString) (hc : Canonical P v) :
    (match (xmlEntry P k v).getFirstChildElement with
      | some child => P.createDocument child
      | Option.none => (xmlEntry P k v).getStringAttribute (T "val")) = v := by
  unfold Canonical at hc
  unfold xmlEntry
  cases h : P.getDocumentElement false v with
  | none =>
    simp [XmlElement.getStringAttribute, XmlElement.setAttribute, XmlElement.addChildElement,
      XmlElement.new, XmlElement.tagName, XmlElement.attributes, XmlElement.children,
      XmlElement.getFirstChildElement, setEntry, keyMatches, name_ne_val]
  | some child =>
    rw [h] at hc
    simpa [XmlElement.getStringAttribute, XmlElement.setAttribute, XmlElement.addChildElement,
      XmlElement.new, XmlElement.tagName, XmlElement.attributes, XmlElement.children,
      XmlElement.getFirstChildElement, setEntry, keyMatches, name_ne_val] using hc

theorem readXmlValues_entries (P : Platform) (ic : Bool) (es : List (JString × JString)) :
    ∀ (pre : List (JString × JString)),
      (∀ e ∈ es, e.1 ≠ [] ∧ Canonical P e.2) →
      (pre ++ es).Pairwise (fun a b => keyMatches ic a.1 b.1 = false) →
      readXmlValues P (es.map (fun kv => xmlEntry P kv.1 kv.2)) ⟨pre, ic⟩
        = ⟨pre ++ es, ic⟩ := by
  induction es with
  | nil => intro pre _ _; simp [readXmlValues]
  | cons e tl ih =>
    intro pre hes hpw
    obtain ⟨k, v⟩ := e
    have hk := hes (k, v) (List.mem_cons_self _ _)
    have hpre : ∀ e ∈ pre, keyMatches ic e.1 k = false := by
      intro e he
      rw [List.pairwise_append] at hpw
      exact hpw.2.2 e he (k, v) (List.mem_cons_self _ _)
    have hpw2 : ((pre ++ [(k, v)]) ++ tl).Pairwise
        (fun a b => keyMatches ic a.1 b.1 = false) := by
      simpa using hpw
    have ih2 := ih (pre ++ [(k, v)]) (fun e he => hes e (List.mem_cons_of_mem _ he)) hpw2
    simp only [List.map_cons, readXmlValues, xmlEntry_name, xmlEntry_value P k v hk.2]
    simp only [ne_eq, hk.1, not_false_eq_true, if_true, StringPairArray.set,
      setEntry_append ic pre k v hpre]
    rw [ih2]
    simp


theorem xmlDocument_children (P : Platform) (props : StringPairArray) :
    (xmlDocument P props).childElementsWithTagName propertyTagName
      = props.entries.map (fun kv => xmlEntry P kv.1 kv.2) := by
  rw [xmlDocument_eq]
  simp only [XmlElement.childElementsWithTagName, XmlElement.children]
  rw [List.filter_eq_self]
  intro c hc
  obtain ⟨kv, _, rfl⟩ := List.mem_map.1 hc
  exact xmlEntry_hasTagName P kv.1 kv.2

/-- In the XML format the result of `save` is the result of the document
write, the target then holds the serialized document, and `needsWriting` is
whatever it was before. -/
theorem save_xml_success (P : Platform) (fl : Faults) (this : PropertiesFile) (w : World)
    (hx : this.options &&& storeAsXML ≠ 0) (h : (this.save P fl w).1 = true) :
    (this.save P fl w).2.2.files this.file
      = some (P.documentText (xmlDocument P this.properties)) := by
  by_cases h1 : this.file = File.nonexistent ∨ (w.log .saveCalled).isDirectory this.file = true
  · simp [PropertiesFile.save, PropertiesFile.stopTimer, h1] at h
  by_cases h2 : ((w.log .saveCalled).createDirectory fl (P.getParentDirectory this.file)).1 = false
  · simp [PropertiesFile.save, PropertiesFile.stopTimer, h1, h2] at h
  simp only [PropertiesFile.save, PropertiesFile.stopTimer, PropertiesFile.getAllProperties,
    h1, h2, hx, if_false, ne_eq, not_false_eq_true, if_true] at h ⊢
  cases hwr : fl.writeToFileOk
  · simp [World.writeToFile, hwr] at h
  · simp [World.writeToFile, World.setFile, World.log, hwr]

/-- Loading a file that holds the serialized document of a mapping with unique
keys and canonical values yields the entries of the mapping. -/
theorem new_of_xml_content (P : Platform) (fl : Faults) (w : World) (f : File)
    (ms : Int) (opts : Nat) (props : StringPairArray) (hkeys : UniqueKeys props.entries)
    (hcanon : ∀ e ∈ props.entries, Canonical P e.2)
    (hlib : ReadsBack P (xmlDocument P props))
    (hfile : w.createInputStream fl f = some (P.documentText (xmlDocument P props))) :
    (PropertiesFile.new P fl w f ms opts).properties = ⟨props.entries, true⟩ := by
  obtain ⟨hm, hmc, ⟨outer, houter, htag⟩, hfull⟩ := hlib
  have htag2 : outer.hasTagName propertyFileXmlTag = true := by
    rw [xmlDocument_eq] at htag
    exact htag
  unfold PropertiesFile.new
  simp only [hfile, hmc, hm, decide_False, if_false, Bool.false_eq_true, houter, htag2,
    if_true, hfull, PropertiesFile.getAllProperties, xmlDocument_children]
  rw [show decide (ignoreCaseOfKeyNames ≠ 0) = true by decide]
  have := readXmlValues_entries P true props.entries []
    (fun e he => ⟨hkeys.1 e he, hcanon e he⟩) (by simpa using hkeys.2)
  simpa using this

/-- What the constructor reads from the element of one entry is the value
that was saved, passed through the parser and the writer when it parses. -/
theorem xmlEntry_loaded (P : Platform) (k v : JString) :
    (match (xmlEntry P k v).getFirstChildElement with
      | some child => P.createDocument child
      | Option.none => (xmlEntry P k v).getStringAttribute (T "val"))
      = xmlLoadedValue P v := by
  unfold xmlLoadedValue xmlEntry
  cases h : P.getDocumentElement false v with
  | none =>
    simp [XmlElement.getStringAttribute, XmlElement.setAttribute, XmlElement.addChildElement,
      XmlElement.new, XmlElement.tagName, XmlElement.attributes, XmlElement.children,
      XmlElement.getFirstChildElement, setEntry, keyMatches, name_ne_val]
  | some child =>
    simp [XmlElement.getStringAttribute, XmlElement.setAttribute, XmlElement.addChildElement,
      XmlElement.new, XmlElement.tagName, XmlElement.attributes, XmlElement.children,
      XmlElement.getFirstChildElement, setEntry, keyMatches, name_ne_val]

/-- The loop over the entry elements of a saved mapping inserts every key, in
order, with the value the XML format gives back for it. -/
theorem readXmlValues_loaded (P : Platform) (ic : Bool) (es : List (JString × JString)) :
    ∀ (pre : List (JString × JString)),
      (∀ e ∈ es, e.1 ≠ []) →
      (pre ++ es).Pairwise (fun a b => keyMatches ic a.1 b.1 = false) →
      readXmlValues P (es.map (fun kv => xmlEntry P kv.1 kv.2)) ⟨pre, ic⟩
        = ⟨pre ++ es.map (fun e => (e.1, xmlLoadedValue P e.2)), ic⟩ := by
  induction es with
  | nil => intro pre _ _; simp [readXmlValues]
  | cons e tl ih =>
    intro pre hes hpw
    obtain ⟨k, v⟩ := e
    have hk := hes (k, v) (List.mem_cons_self _ _)
    have hpre : ∀ e ∈ pre, keyMatches ic e.1 k = false := by
      intro e he
      rw [List.pairwise_append] at hpw
      exact hpw.2.2 e he (k, v) (List.mem_cons_self _ _)
    have hpw2 : ((pre ++ [(k, xmlLoadedValue P v)]) ++ tl).Pairwise
        (fun a b => keyMatches ic a.1 b.1 = false) := by
      rw [List.pairwise_append] at hpw ⊢
      obtain ⟨h1, h2, h3⟩ := hpw
      rw [List.pairwise_cons] at h2
      refine ⟨?_, h2.2, ?_⟩
      · rw [List.pairwise_append]
        refine ⟨h1, List.pairwise_singleton _ _, ?_⟩
        intro a ha b hb
        rw [List.mem_singleton] at hb
        rw [hb]
        exact hpre a ha
      · intro a ha b hb
        rcases List.mem_append.1 ha with ha | ha
        · exact h3 a ha b (List.mem_cons_of_mem _ hb)
        · rw [List.mem_singleton] at ha
          rw [ha]
          exact h2.1 b hb
    have ih2 := ih (pre ++ [(k, xmlLoadedValue P v)])
      (fun e he => hes e (List.mem_cons_of_mem _ he)) hpw2
    simp only [List.map_cons, readXmlValues, xmlEntry_name, xmlEntry_loaded P k v]
    simp only [ne_eq, hk, not_false_eq_true, if_true, StringPairArray.set,
      setEntry_append ic pre k (xmlLoadedValue P v) hpre]
    rw [ih2]
    simp

/-- Values that are canonical come back as they are. -/
theorem xmlLoadedValue_of_canonical (P : Platform) (v : JString) (hc : Canonical P v) :
    xmlLoadedValue P v = v := by
  unfold Canonical at hc
  unfold xmlLoadedValue
  cases h : P.getDocumentElement false v with
  | none => rfl
  | some child =>
    rw [h] at hc
    exact hc

/-- Loading a file that holds the serialized document of a mapping with unique
keys yields every key with the value the XML format gives back for it. -/
theorem new_of_xml_document (P : Platform) (fl : Faults) (w : World) (f : File)
    (ms : Int) (opts : Nat) (props : StringPairArray) (hkeys : UniqueKeys props.entries)
    (hlib : ReadsBack P (xmlDocument P props))
    (hfile : w.createInputStream fl f = some (P.documentText (xmlDocument P props))) :
    (PropertiesFile.new P fl w f ms opts).properties
      = ⟨props.entries.map (fun e => (e.1, xmlLoadedValue P e.2)), true⟩ := by
  obtain ⟨hm, hmc, ⟨outer, houter, htag⟩, hfull⟩ := hlib
  have htag2 : outer.hasTagName propertyFileXmlTag = true := by
    rw [xmlDocument_eq] at htag
    exact htag
  unfold PropertiesFile.new
  simp only [hfile, hmc, hm, decide_False, if_false, Bool.false_eq_true, houter, htag2,
    if_true, hfull, PropertiesFile.getAllProperties, xmlDocument_children]
  rw [show decide (ignoreCaseOfKeyNames ≠ 0) = true by decide]
  have hload := readXmlValues_loaded P true props.entries []
    (fun e he => hkeys.1 e he) (by simpa using hkeys.2)
  simpa using hload

/-- C2 (amended). XML round trip: a store configured for XML whose keys are
not empty and pairwise different is saved successfully, the XML library
reading back the document it wrote. A fresh store on the same path then holds
every key, in the same order, with its value unchanged when the value does
not parse as an XML document and with the serialized form of the element it
parses to when it does; so the mapping is identical whenever every value that
parses is that serialized form already. A value that parses is written as the
single child element of its entry, which carries no `val` attribute; a value
that does not parse is written as the `val` attribute of an entry without
children. -/
theorem xml_round_trip (P : Platform) (fl fl2 : Faults) (this : PropertiesFile)
    (w : World) (millisecondsBeforeSaving : Int) (options_ : Nat)
    (hfmt : IsXml this.options)
    (hkeys : UniqueKeys this.properties.entries)
    (hlib : ReadsBack P (xmlDocument P this.properties))
    (hsave : (this.save P fl w).1 = true)
    (hread : fl2.createInputStreamOk = true) :
    (PropertiesFile.new P fl2 (this.save P fl w).2.2 this.file millisecondsBeforeSaving
        options_).getAllProperties.entries
      = this.getAllProperties.entries.map (fun e => (e.1, xmlLoadedValue P e.2))
    ∧ ((∀ e ∈ this.getAllProperties.entries, Canonical P e.2) →
        (PropertiesFile.new P fl2 (this.save P fl w).2.2 this.file millisecondsBeforeSaving
            options_).getAllProperties.entries
          = this.getAllProperties.entries)
    ∧ (∀ e ∈ this.getAllProperties.entries, ∀ child,
        P.getDocumentElement false e.2 = some child →
          xmlEntry P e.1 e.2 = XmlElement.mk propertyTagName [(T "name", e.1)] [child]
            ∧ xmlLoadedValue P e.2 = P.createDocument child)
    ∧ (∀ e ∈ this.getAllProperties.entries,
        P.getDocumentElement false e.2 = Option.none →
          xmlEntry P e.1 e.2
              = XmlElement.mk propertyTagName [(T "name", e.1), (T "val", e.2)] []
            ∧ xmlLoadedValue P e.2 = e.2) := by
  have hx := options_of_isXml _ hfmt
  have hfile := save_xml_success P fl this w hx hsave
  have hcontent : (this.save P fl w).2.2.createInputStream fl2 this.file
      = some (P.documentText (xmlDocument P this.properties)) := by
    simp [World.createInputStream, hread, hfile]
  have hnew := new_of_xml_document P fl2 _ this.file millisecondsBeforeSaving options_
    this.properties hkeys hlib hcontent
  have hentries : (PropertiesFile.new P fl2 (this.save P fl w).2.2 this.file
        millisecondsBeforeSaving options_).getAllProperties.entries
      = this.getAllProperties.entries.map (fun e => (e.1, xmlLoadedValue P e.2)) := by
    simp [PropertiesFile.getAllProperties, hnew]
  refine ⟨hentries, ?_, ?_, ?_⟩
  · intro hcanon
    rw [hentries]
    have hid : ∀ e ∈ this.getAllProperties.entries,
        (fun e : JString × JString => (e.1, xmlLoadedValue P e.2)) e = id e := by
      intro e he
      simp only [id]
      rw [xmlLoadedValue_of_canonical P e.2 (hcanon e he)]
    rw [List.map_congr_left hid, List.map_id]
  · intro e _ child hchild
    refine ⟨?_, ?_⟩
    · simp [xmlEntry, hchild, XmlElement.new, XmlElement.setAttribute,
        XmlElement.addChildElement, XmlElement.tagName, XmlElement.attributes,
        XmlElement.children, setEntry]
    · simp [xmlLoadedValue, hchild]
  · intro e _ hnone
    refine ⟨?_, ?_⟩
    · simp [xmlEntry, hnone, XmlElement.new, XmlElement.setAttribute,
        XmlElement.tagName, XmlElement.attributes,
        XmlElement.children, setEntry, keyMatches, name_ne_val]
    · simp [xmlLoadedValue, hnone]

set_option maxRecDepth 100000 in
theorem xml_round_trip_witness :
    (PropertiesFile.new refPlatform Faults.none
        ((exampleStore storeAsXML (-1) mixedXmlEntries).save refPlatform Faults.none
          emptyWorld).2.2 exampleFile 0 storeAsBinary).getAllProperties.entries
      = [(T "volume", T "11"), (T "markup", T "<a/>"), (T "nested", T "<a>1</a>")]
    ∧ (PropertiesFile.new refPlatform Faults.none
        ((exampleStore storeAsXML (-1) exampleXmlEntries).save refPlatform Faults.none
          emptyWorld).2.2 exampleFile 0 storeAsBinary).getAllProperties.entries
      = exampleXmlEntries :=
  have hmixed := xml_round_trip refPlatform Faults.none Faults.none
    (exampleStore storeAsXML (-1) mixedXmlEntries) emptyWorld 0 storeAsBinary
    (by decide) (by decide)
    ⟨by decide, by decide, ⟨_, rfl, by decide⟩, by rfl⟩ (by decide) (by decide)
  have hsame := xml_round_trip refPlatform Faults.none Faults.none
    (exampleStore storeAsXML (-1) exampleXmlEntries) emptyWorld 0 storeAsBinary
    (by decide) (by decide)
    ⟨by decide, by decide, ⟨_, rfl, by decide⟩, by rfl⟩ (by decide) (by decide)
  ⟨hmixed.1.trans (by decide), hsame.2.1 (by decide)⟩

/-- C2 as stated fails: the value `<a></a>`, a well-formed document, is saved
by a store configured for XML and loaded back as `<a/>`. -/
theorem xml_round_trip_counterexample :
    IsXml storeAsXML ∧ UniqueKeys nonCanonicalEntries
    ∧ ((exampleStore storeAsXML (-1) nonCanonicalEntries).save refPlatform Faults.none
        emptyWorld).1 = true
    ∧ (PropertiesFile.new refPlatform Faults.none
        ((exampleStore storeAsXML (-1) nonCanonicalEntries).save refPlatform Faults.none
          emptyWorld).2.2 exampleFile (-1) storeAsXML).getAllProperties.entries
        = [(T "markup", T "<a/>")]
    ∧ (PropertiesFile.new refPlatform Faults.none
        ((exampleStore storeAsXML (-1) nonCanonicalEntries).save refPlatform Faults.none
          emptyWorld).2.2 exampleFile (-1) storeAsXML).getAllProperties.entries
        ≠ nonCanonicalEntries := by
  refine ⟨by decide, by decide, by decide, by decide, by decide⟩


/-! ## What `save` does, case by case -/

/-- The function `save` never touches the mapping, the path, the options or the interval,
and always leaves the timer stopped. -/
theorem save_frame (P : Platform) (fl : Faults) (this : PropertiesFile) (w : World) :
    (this.save P fl w).2.1.properties = this.properties
    ∧ (this.save P fl w).2.1.file = this.file
    ∧ (this.save P fl w).2.1.options = this.options
    ∧ (this.save P fl w).2.1.timerInterval = this.timerInterval
    ∧ (this.save P fl w).2.1.timer = ⟨0, 0⟩ := by
  unfold PropertiesFile.save
  simp only [PropertiesFile.stopTimer]
  split_ifs
  any_goals simp
  split
  · split_ifs <;> simp
  · simp

/-- Recording an event does not change whether a directory can be created. -/
theorem createDirectory_log_fst (w : World) (e : Event) (fl : Faults) (dir : File) :
    ((w.log e).createDirectory fl dir).1 = (w.createDirectory fl dir).1 := by
  unfold World.createDirectory World.log
  split_ifs <;> rfl

/-- A directory that cannot be created leaves the world as it was. -/
theorem createDirectory_of_false (w : World) (fl : Faults) (dir : File)
    (h : (w.createDirectory fl dir).1 = false) : w.createDirectory fl dir = (false, w) := by
  unfold World.createDirectory at h ⊢
  split_ifs at h ⊢
  rfl

/-- The target is the nonexistent file or a directory: `save` fails at once. -/
theorem save_of_bad_target (P : Platform) (fl : Faults) (this : PropertiesFile) (w : World)
    (h : this.file = File.nonexistent ∨ w.isDirectory this.file = true) :
    this.save P fl w = (false, this.stopTimer, w.log .saveCalled) := by
  have h1 : this.file = File.nonexistent ∨ (w.log .saveCalled).isDirectory this.file = true := h
  simp [PropertiesFile.save, PropertiesFile.stopTimer, h1]

/-- The parent directory cannot be created: `save` fails before any file is touched. -/
theorem save_of_no_directory (P : Platform) (fl : Faults) (this : PropertiesFile) (w : World)
    (h1 : ¬ (this.file = File.nonexistent ∨ w.isDirectory this.file = true))
    (h2 : (w.createDirectory fl (P.getParentDirectory this.file)).1 = false) :
    this.save P fl w = (false, this.stopTimer, w.log .saveCalled) := by
  have h1b : ¬ (this.file = File.nonexistent ∨ (w.log .saveCalled).isDirectory this.file = true) := h1
  have hd : (w.log .saveCalled).createDirectory fl (P.getParentDirectory this.file)
      = (false, w.log .saveCalled) :=
    createDirectory_of_false _ _ _ (by rw [createDirectory_log_fst]; exact h2)
  simp [PropertiesFile.save, PropertiesFile.stopTimer, h1b, hd]

/-- The XML format, preconditions met: the result is that of the document write. -/
theorem save_of_xml (P : Platform) (fl : Faults) (this : PropertiesFile) (w : World)
    (h1 : ¬ (this.file = File.nonexistent ∨ w.isDirectory this.file = true))
    (h2 : (w.createDirectory fl (P.getParentDirectory this.file)).1 = true)
    (hx : this.options &&& storeAsXML ≠ 0) :
    this.save P fl w
      = (((saveWorld P fl this w).writeToFile fl this.file
            (P.documentText (xmlDocument P this.properties))).1,
         this.stopTimer,
         ((saveWorld P fl this w).writeToFile fl this.file
            (P.documentText (xmlDocument P this.properties))).2) := by
  have h1b : ¬ (this.file = File.nonexistent ∨ (w.log .saveCalled).isDirectory this.file = true) := h1
  have hd : ((w.log .saveCalled).createDirectory fl (P.getParentDirectory this.file)).1 = true := by
    rw [createDirectory_log_fst]; exact h2
  simp [PropertiesFile.save, PropertiesFile.stopTimer, PropertiesFile.getAllProperties, h1b, hd,
    hx, saveWorld]

/-- A binary format, preconditions met, the temporary file cannot be opened. -/
theorem save_of_no_stream (P : Platform) (fl : Faults) (this : PropertiesFile) (w : World)
    (h1 : ¬ (this.file = File.nonexistent ∨ w.isDirectory this.file = true))
    (h2 : (w.createDirectory fl (P.getParentDirectory this.file)).1 = true)
    (hx : this.options &&& storeAsXML = 0)
    (ho : fl.createOutputStreamOk = false) :
    this.save P fl w = (false, this.stopTimer, saveWorld P fl this w) := by
  have h1b : ¬ (this.file = File.nonexistent ∨ (w.log .saveCalled).isDirectory this.file = true) := h1
  have hd : ((w.log .saveCalled).createDirectory fl (P.getParentDirectory this.file)).1 = true := by
    rw [createDirectory_log_fst]; exact h2
  simp [PropertiesFile.save, PropertiesFile.stopTimer, h1b, hd, hx, saveWorld,
    World.createOutputStream, ho]

/-- A binary format, the temporary file written, the move fails. -/
theorem save_of_move_failure (P : Platform) (fl : Faults) (this : PropertiesFile) (w : World)
    (h1 : ¬ (this.file = File.nonexistent ∨ w.isDirectory this.file = true))
    (h2 : (w.createDirectory fl (P.getParentDirectory this.file)).1 = true)
    (hx : this.options &&& storeAsXML = 0)
    (ho : fl.createOutputStreamOk = true)
    (hm : fl.moveFileOk = false) :
    this.save P fl w
      = (false, this.stopTimer,
          (writtenWorld P fl this w).deleteFile (saveTempFile P fl this w)) := by
  have h1b : ¬ (this.file = File.nonexistent ∨ (w.log .saveCalled).isDirectory this.file = true) := h1
  have hd : ((w.log .saveCalled).createDirectory fl (P.getParentDirectory this.file)).1 = true := by
    rw [createDirectory_log_fst]; exact h2
  simp [PropertiesFile.save, PropertiesFile.stopTimer, PropertiesFile.getAllProperties, h1b, hd,
    hx, saveWorld, saveTempFile, writtenWorld, World.createOutputStream, ho, World.moveFileTo, hm]

/-- A binary format, the temporary file written, the move succeeds. -/
theorem save_of_move_success (P : Platform) (fl : Faults) (this : PropertiesFile) (w : World)
    (h1 : ¬ (this.file = File.nonexistent ∨ w.isDirectory this.file = true))
    (h2 : (w.createDirectory fl (P.getParentDirectory this.file)).1 = true)
    (hx : this.options &&& storeAsXML = 0)
    (ho : fl.createOutputStreamOk = true)
    (hm : fl.moveFileOk = true) :
    this.save P fl w
      = (true, { this.stopTimer with needsWriting := false },
          ((writtenWorld P fl this w).moveFileTo fl (saveTempFile P fl this w) this.file).2) := by
  have h1b : ¬ (this.file = File.nonexistent ∨ (w.log .saveCalled).isDirectory this.file = true) := h1
  have hd : ((w.log .saveCalled).createDirectory fl (P.getParentDirectory this.file)).1 = true := by
    rw [createDirectory_log_fst]; exact h2
  have hmv : ((writtenWorld P fl this w).moveFileTo fl (saveTempFile P fl this w) this.file).1
      = true := by
    unfold World.moveFileTo
    simp only [hm, if_true]
    split_ifs <;> rfl
  simp only [PropertiesFile.save, PropertiesFile.stopTimer, PropertiesFile.getAllProperties,
    h1b, hd, hx, World.createOutputStream, ho, if_true, if_false, Bool.true_eq_false,
    ne_eq, not_true_eq_false]
  simp only [saveWorld, saveTempFile, writtenWorld, PropertiesFile.stopTimer] at hmv ⊢
  simp only [hmv, if_true]


/-- A failed `save` leaves `needsWriting` as it was. -/
theorem save_false_needsWriting (P : Platform) (fl : Faults) (this : PropertiesFile)
    (w : World) (h : (this.save P fl w).1 = false) :
    (this.save P fl w).2.1.needsWriting = this.needsWriting := by
  by_cases h1 : this.file = File.nonexistent ∨ w.isDirectory this.file = true
  · rw [save_of_bad_target P fl this w h1]; rfl
  cases h2 : (w.createDirectory fl (P.getParentDirectory this.file)).1
  · rw [save_of_no_directory P fl this w h1 h2]; rfl
  by_cases hx : this.options &&& storeAsXML = 0
  · cases ho : fl.createOutputStreamOk
    · rw [save_of_no_stream P fl this w h1 h2 hx ho]; rfl
    · cases hm : fl.moveFileOk
      · rw [save_of_move_failure P fl this w h1 h2 hx ho hm]; rfl
      · rw [save_of_move_success P fl this w h1 h2 hx ho hm] at h
        simp at h
  · rw [save_of_xml P fl this w h1 h2 hx]; rfl

/-- In the XML format `save` leaves `needsWriting` as it was, whatever the outcome. -/
theorem save_xml_needsWriting (P : Platform) (fl : Faults) (this : PropertiesFile)
    (w : World) (hx : this.options &&& storeAsXML ≠ 0) :
    (this.save P fl w).2.1.needsWriting = this.needsWriting := by
  by_cases h1 : this.file = File.nonexistent ∨ w.isDirectory this.file = true
  · rw [save_of_bad_target P fl this w h1]; rfl
  cases h2 : (w.createDirectory fl (P.getParentDirectory this.file)).1
  · rw [save_of_no_directory P fl this w h1 h2]; rfl
  · rw [save_of_xml P fl this w h1 h2 hx]; rfl

/-! ## The dirty flag and `saveIfNeeded` -/

/-- C3: the failing input. A store configured for XML has unsaved changes;
`save` returns true, and `needsToBeSaved` still returns true afterwards. -/
theorem save_xml_stays_dirty :
    IsXml storeAsXML
    ∧ ((exampleStore storeAsXML (-1) exampleEntries).save refPlatform Faults.none
        emptyWorld).1 = true
    ∧ ((exampleStore storeAsXML (-1) exampleEntries).save refPlatform Faults.none
        emptyWorld).2.1.needsToBeSaved = true := by
  refine ⟨by decide, by decide, by decide⟩

/-- On a store without unsaved changes `saveIfNeeded` returns true and does nothing. -/
theorem saveIfNeeded_clean (P : Platform) (fl : Faults) (this : PropertiesFile) (w : World)
    (h : this.needsWriting = false) : this.saveIfNeeded P fl w = (true, this, w) := by
  simp [PropertiesFile.saveIfNeeded, h]

/-- On a store with unsaved changes `saveIfNeeded` is `save`. -/
theorem saveIfNeeded_dirty (P : Platform) (fl : Faults) (this : PropertiesFile) (w : World)
    (h : this.needsWriting = true) : this.saveIfNeeded P fl w = this.save P fl w := by
  simp [PropertiesFile.saveIfNeeded, h]

/-- In the binary formats a second `saveIfNeeded` after a successful one does nothing. -/
theorem saveIfNeeded_twice_binary (P : Platform) (fl fl2 : Faults) (this : PropertiesFile)
    (w : World) (hx : this.options &&& storeAsXML = 0)
    (h : (this.saveIfNeeded P fl w).1 = true) :
    (this.saveIfNeeded P fl w).2.1.saveIfNeeded P fl2 (this.saveIfNeeded P fl w).2.2
      = (true, (this.saveIfNeeded P fl w).2.1, (this.saveIfNeeded P fl w).2.2) := by
  apply saveIfNeeded_clean
  cases hd : this.needsWriting
  · rw [saveIfNeeded_clean P fl this w hd]; exact hd
  · rw [saveIfNeeded_dirty P fl this w hd] at h ⊢
    exact (save_binary_success P fl this w hx h).2

/-- C4: the failing input. A store configured for XML has unsaved changes; the
first `saveIfNeeded` succeeds and writes the file, and with no mutation in
between the second `saveIfNeeded` calls `save` and writes the file again. -/
theorem saveIfNeeded_xml_writes_again :
    xmlFirstSave.1 = true
    ∧ xmlFirstSave.2.2.trace = [.saveCalled, .openedForWriting exampleFile]
    ∧ xmlSecondSave.1 = true
    ∧ xmlSecondSave.2.2.trace
        = [.saveCalled, .openedForWriting exampleFile,
           .saveCalled, .openedForWriting exampleFile] := by
  refine ⟨by decide, by decide, by decide, by decide⟩

/-- C5. Failure reporting: on a store with unsaved changes each of the five
causes (the path is the nonexistent file, the target is a directory, the
parent directory cannot be created, and in the binary formats the temporary
file cannot be opened or the move fails) makes `save` return false; whenever
`save` returns false the store still needs saving and its mapping is
unchanged; and after one of the three precondition failures the world differs
from the one before only by the record of the call. -/
theorem save_failure_reporting (P : Platform) (fl : Faults) (this : PropertiesFile)
    (w : World) (hdirty : this.needsToBeSaved = true) :
    (this.file = File.nonexistent → (this.save P fl w).1 = false)
    ∧ (w.isDirectory this.file = true → (this.save P fl w).1 = false)
    ∧ ((w.createDirectory fl (P.getParentDirectory this.file)).1 = false →
        (this.save P fl w).1 = false)
    ∧ (this.options &&& storeAsXML = 0 → fl.createOutputStreamOk = false →
        (this.save P fl w).1 = false)
    ∧ (this.options &&& storeAsXML = 0 → fl.moveFileOk = false →
        (this.save P fl w).1 = false)
    ∧ ((this.save P fl w).1 = false →
        (this.save P fl w).2.1.needsToBeSaved = true
        ∧ (this.save P fl w).2.1.getAllProperties = this.getAllProperties)
    ∧ (this.file = File.nonexistent ∨ w.isDirectory this.file = true
          ∨ (w.createDirectory fl (P.getParentDirectory this.file)).1 = false →
        (this.save P fl w).2.2 = w.log .saveCalled) := by
  have hA : ∀ h : this.file = File.nonexistent ∨ w.isDirectory this.file = true,
      (this.save P fl w).1 = false ∧ (this.save P fl w).2.2 = w.log .saveCalled := by
    intro h
    rw [save_of_bad_target P fl this w h]
    exact ⟨rfl, rfl⟩
  have hB : (w.createDirectory fl (P.getParentDirectory this.file)).1 = false →
      (this.save P fl w).1 = false ∧ (this.save P fl w).2.2 = w.log .saveCalled := by
    intro h2
    by_cases h1 : this.file = File.nonexistent ∨ w.isDirectory this.file = true
    · exact hA h1
    · rw [save_of_no_directory P fl this w h1 h2]
      exact ⟨rfl, rfl⟩
  have hearly : ∀ hx : this.options &&& storeAsXML = 0,
      fl.createOutputStreamOk = false ∨ fl.moveFileOk = false →
      (this.save P fl w).1 = false := by
    intro hx hf
    by_cases h1 : this.file = File.nonexistent ∨ w.isDirectory this.file = true
    · exact (hA h1).1
    cases h2 : (w.createDirectory fl (P.getParentDirectory this.file)).1
    · exact (hB h2).1
    cases ho : fl.createOutputStreamOk
    · rw [save_of_no_stream P fl this w h1 h2 hx ho]
    · cases hm : fl.moveFileOk
      · rw [save_of_move_failure P fl this w h1 h2 hx ho hm]
      · rcases hf with hf | hf
        · rw [ho] at hf; cases hf
        · rw [hm] at hf; cases hf
  refine ⟨fun h => (hA (Or.inl h)).1, fun h => (hA (Or.inr h)).1, fun h => (hB h).1,
    fun hx ho => hearly hx (Or.inl ho), fun hx hm => hearly hx (Or.inr hm), ?_, ?_⟩
  · intro hfalse
    refine ⟨?_, ?_⟩
    · unfold PropertiesFile.needsToBeSaved at hdirty ⊢
      rw [save_false_needsWriting P fl this w hfalse]
      exact hdirty
    · unfold PropertiesFile.getAllProperties
      exact (save_frame P fl this w).1
  · rintro (h | h | h)
    · exact (hA (Or.inl h)).2
    · exact (hA (Or.inr h)).2
    · exact (hB h).2

theorem save_failure_reporting_witness :
    (exampleStore storeAsBinary (-1) exampleEntries).needsToBeSaved = true
    ∧ ((exampleStore storeAsBinary (-1) exampleEntries).save refPlatform
        ⟨true, true, true, false, true⟩ emptyWorld).1 = false
    ∧ ((exampleStore storeAsBinary (-1) exampleEntries).save refPlatform
        ⟨true, true, true, false, true⟩ emptyWorld).2.1.needsToBeSaved = true
    ∧ ((exampleStore storeAsBinary (-1) exampleEntries).save refPlatform
        ⟨true, true, true, false, true⟩ emptyWorld).2.1.getAllProperties
          = (exampleStore storeAsBinary (-1) exampleEntries).getAllProperties :=
  have h := save_failure_reporting refPlatform ⟨true, true, true, false, true⟩
    (exampleStore storeAsBinary (-1) exampleEntries) emptyWorld (by decide)
  ⟨by decide, h.2.2.2.2.1 (by decide) rfl,
    (h.2.2.2.2.2.1 (h.2.2.2.2.1 (by decide) rfl)).1,
    (h.2.2.2.2.2.1 (h.2.2.2.2.1 (by decide) rfl)).2⟩

/-! ## Atomic replacement -/

theorem refNonexistentSibling_ne (w : World) (f : File) : refNonexistentSibling w f ≠ f := by
  have hlen : ∀ g : File, g.fullPath.length ≠ f.fullPath.length → g ≠ f := by
    intro g hg e
    rw [e] at hg
    exact hg rfl
  apply hlen
  unfold refNonexistentSibling
  simp only []
  cases hfind : List.find? (fun c => (w.files c).isNone && !w.directories c)
      ((List.range 10).map (fun n => (⟨f.fullPath ++ [95, Fin.ofNat (48 + n)]⟩ : File))) with
  | none =>
    simp [T]
  | some c =>
    have hmem := List.mem_of_find?_eq_some hfind
    obtain ⟨n, _, rfl⟩ := List.mem_map.1 hmem
    simp

/-- The mapping a new store holds depends on the content read from the file
only: not on the path, the interval or the option flags. -/
theorem new_properties_of_content (P : Platform) (wa wb : World) (fa fb : File)
    (fla flb : Faults) (msa msb : Int) (oa ob : Nat)
    (h : wa.createInputStream fla fa = wb.createInputStream flb fb) :
    (PropertiesFile.new P fla wa fa msa oa).getAllProperties
      = (PropertiesFile.new P flb wb fb msb ob).getAllProperties := by
  unfold PropertiesFile.new
  simp only [h, PropertiesFile.getAllProperties]
  cases wb.createInputStream flb fb with
  | none => rfl
  | some content =>
    simp only []
    by_cases hmagic : (if decide ((readInt content).1 = propFileMagicNumberCompressed) = true
        then propFileMagicNumber else (readInt content).1) = propFileMagicNumber
    · simp only [hmagic, if_true]
    · simp only [hmagic, if_false]
      cases P.getDocumentElement true content with
      | none => rfl
      | some outer =>
        simp only []
        by_cases htag : outer.hasTagName propertyFileXmlTag = true
        · simp only [htag, if_true]
          cases P.getDocumentElement false content <;> rfl
        · simp only [htag, if_false]
          rfl

/-- C7. Format negotiation by content: a store configured for compressed
binary with storable entries is saved successfully; the file is the four
bytes of the compressed magic number followed by the compression of the entry
count and the pairs; a fresh store with any option flags (plain binary and XML
among them) loads exactly the same entries from it, decompression undoing the
compression of that payload; and what a new store holds is a function of the
content of the file alone. -/
theorem format_negotiation (P : Platform) (fl fl2 : Faults) (this : PropertiesFile)
    (w : World) (millisecondsBeforeSaving : Int) (options_ : Nat)
    (hfmt : IsCompressedBinary this.options)
    (hst : Storable this.getAllProperties.entries)
    (hinv : P.decompress (P.compress (writeValues this.getAllProperties))
      = writeValues this.getAllProperties)
    (hsave : (this.save P fl w).1 = true)
    (hread : fl2.createInputStreamOk = true) :
    (this.save P fl w).2.2.files this.file
        = some (writeInt propFileMagicNumberCompressed
            ++ P.compress (writeInt (this.getAllProperties.size : Int)
                ++ writePairs this.getAllProperties.entries))
    ∧ (PropertiesFile.new P fl2 (this.save P fl w).2.2 this.file millisecondsBeforeSaving
        options_).getAllProperties.entries = this.getAllProperties.entries
    ∧ ∀ (wa wb : World) (fa fb : File) (fla flb : Faults) (msa msb : Int) (oa ob : Nat),
        wa.createInputStream fla fa = wb.createInputStream flb fb →
        (PropertiesFile.new P fla wa fa msa oa).getAllProperties
          = (PropertiesFile.new P flb wb fb msb ob).getAllProperties := by
  obtain ⟨hx, hc⟩ := options_of_isCompressedBinary _ hfmt
  have hfile := (save_binary_success P fl this w hx hsave).1
  simp only [binaryFileContent, hc, ne_eq, not_false_eq_true, if_true] at hfile
  have hcontent : (this.save P fl w).2.2.createInputStream fl2 this.file
      = some (writeInt propFileMagicNumberCompressed ++ P.compress (writeValues this.properties)) := by
    simp [World.createInputStream, hread, hfile]
  have hnew := new_of_compressed_content P fl2 _ this.file millisecondsBeforeSaving options_
    this.properties hst hinv hcontent
  refine ⟨hfile, ?_, ?_⟩
  · simp [PropertiesFile.getAllProperties, hnew]
  · intro wa wb fa fb fla flb msa msb oa ob h
    exact new_properties_of_content P wa wb fa fb fla flb msa msb oa ob h

theorem format_negotiation_witness :
    ((exampleStore storeAsCompressedBinary (-1) exampleEntries).save refPlatform Faults.none
        emptyWorld).2.2.files exampleFile
      = some (writeInt propFileMagicNumberCompressed
          ++ refCompress (writeInt 2 ++ writePairs exampleEntries))
    ∧ (PropertiesFile.new refPlatform Faults.none
        ((exampleStore storeAsCompressedBinary (-1) exampleEntries).save refPlatform
          Faults.none emptyWorld).2.2 exampleFile 0 storeAsXML).getAllProperties.entries
      = exampleEntries :=
  have h := format_negotiation refPlatform Faults.none Faults.none
    (exampleStore storeAsCompressedBinary (-1) exampleEntries) emptyWorld 0 storeAsXML
    (by decide) (by decide) (by decide) (by decide) (by decide)
  ⟨h.1, h.2.1⟩

/-! ## Unrecognised input -/

/-- C8. Unrecognised input: the file can be read, its leading integer is
neither magic number, and either no outer element is found, or the full parse
fails, or the outer element has another tag than `PROPERTIES`; then the new
store holds no entry and does not need saving. -/
theorem unrecognised_input_empty (P : Platform) (fl : Faults) (w : World) (f : File)
    (millisecondsBeforeSaving : Int) (options_ : Nat) (content : List Byte)
    (hfile : w.createInputStream fl f = some content)
    (hm : (readInt content).1 ≠ propFileMagicNumber)
    (hmc : (readInt content).1 ≠ propFileMagicNumberCompressed)
    (hxml : P.getDocumentElement true content = none
      ∨ P.getDocumentElement false content = none
      ∨ ∃ outer, P.getDocumentElement true content = some outer
          ∧ outer.hasTagName propertyFileXmlTag = false) :
    (PropertiesFile.new P fl w f millisecondsBeforeSaving options_).getAllProperties.entries
      = []
    ∧ (PropertiesFile.new P fl w f millisecondsBeforeSaving options_).needsToBeSaved
      = false := by
  unfold PropertiesFile.new
  simp only [hfile, hm, hmc, decide_False, Bool.false_eq_true, if_false,
    PropertiesFile.getAllProperties, PropertiesFile.needsToBeSaved]
  rcases hxml with h | h | ⟨outer, h, htag⟩
  · simp [h]
  · cases P.getDocumentElement true content with
    | none => simp
    | some outer =>
      simp only [h]
      split_ifs <;> simp
  · simp [h, htag]

theorem unrecognised_input_empty_witness :
    (PropertiesFile.new refPlatform Faults.none
        (emptyWorld.setFile exampleFile (some foreignDocument))
        exampleFile 0 storeAsXML).getAllProperties.entries = []
    ∧ (PropertiesFile.new refPlatform Faults.none
        (emptyWorld.setFile exampleFile (some foreignDocument))
        exampleFile 0 storeAsXML).needsToBeSaved = false :=
  unrecognised_input_empty refPlatform Faults.none
    (emptyWorld.setFile exampleFile (some foreignDocument))
    exampleFile 0 storeAsXML foreignDocument
    (by decide) (by decide) (by decide)
    (Or.inr (Or.inr ⟨XmlElement.mk (T "SETTINGS") [] [], by rfl, by decide⟩))

/-! ## The case-folding policy -/

/-- The loop over a binary stream keeps the case-folding policy. -/
theorem readValues_ignoreCase (fuel : Nat) :
    ∀ (n : Int) (input : List Byte) (props : StringPairArray),
      (readValues fuel n input props).ignoreCase = props.ignoreCase := by
  induction fuel with
  | zero => intro n input props; rfl
  | succ f ih =>
    intro n input props
    rw [readValues]
    simp only []
    split_ifs
    · rw [ih]; rfl
    · rw [ih]
    · rfl

/-- The loop over the entry elements keeps the case-folding policy. -/
theorem readXmlValues_ignoreCase (P : Platform) (es : List XmlElement) :
    ∀ props : StringPairArray, (readXmlValues P es props).ignoreCase = props.ignoreCase := by
  induction es with
  | nil => intro props; rfl
  | cons e tl ih =>
    intro props
    rw [readXmlValues]
    split_ifs
    · rw [ih]; rfl
    · rw [ih]

/-- Whatever the option flags, a new store compares keys without regard to case. -/
theorem new_ignoreCase (P : Platform) (fl : Faults) (w : World) (f : File) (ms : Int)
    (opts : Nat) : (PropertiesFile.new P fl w f ms opts).getAllProperties.ignoreCase = true := by
  unfold PropertiesFile.new
  simp only [PropertiesFile.getAllProperties]
  rw [show decide (ignoreCaseOfKeyNames ≠ 0) = true by decide]
  cases w.createInputStream fl f with
  | none => rfl
  | some content =>
    simp only []
    by_cases hmagic : (if decide ((readInt content).1 = propFileMagicNumberCompressed) = true
        then propFileMagicNumber else (readInt content).1) = propFileMagicNumber
    · simp only [hmagic, if_true, readValues_ignoreCase]
    · simp only [hmagic, if_false]
      cases P.getDocumentElement true content with
      | none => rfl
      | some outer =>
        simp only []
        by_cases htag : outer.hasTagName propertyFileXmlTag = true
        · simp only [htag, if_true]
          cases P.getDocumentElement false content with
          | none => rfl
          | some doc => simp only [readXmlValues_ignoreCase]
        · simp [htag]

/-- C9: the failing input. A store is constructed with the option flags
`storeAsBinary`, which do not contain `ignoreCaseOfKeyNames`; after
`set ("Name", "Ann")` and `set ("name", "Bob")` it holds the single entry
`Name` with value `Bob`. -/
theorem case_policy_ignores_options :
    storeAsBinary &&& ignoreCaseOfKeyNames = 0
    ∧ plainStore.getAllProperties.ignoreCase = true
    ∧ afterAnn.1.getAllProperties.entries = [(T "Name", T "Ann")]
    ∧ afterBob.1.getAllProperties.entries = [(T "Name", T "Bob")] := by
  refine ⟨by decide, by decide, by decide, by decide⟩

/-! ## Debounced saving -/

theorem saveCount_saveWorld (P : Platform) (fl : Faults) (this : PropertiesFile) (w : World) :
    saveCount (saveWorld P fl this w) = saveCount w + 1 := by
  unfold saveWorld World.createDirectory World.log saveCount
  split_ifs <;> simp [List.count_append, List.count_singleton]

/-- Every call of `save` is recorded exactly once. -/
theorem saveCount_save (P : Platform) (fl : Faults) (this : PropertiesFile) (w : World) :
    saveCount (this.save P fl w).2.2 = saveCount w + 1 := by
  by_cases h1 : this.file = File.nonexistent ∨ w.isDirectory this.file = true
  · rw [save_of_bad_target P fl this w h1]
    simp [saveCount, World.log, List.count_append, List.count_singleton]
  cases h2 : (w.createDirectory fl (P.getParentDirectory this.file)).1
  · rw [save_of_no_directory P fl this w h1 h2]
    simp [saveCount, World.log, List.count_append, List.count_singleton]
  by_cases hx : this.options &&& storeAsXML = 0
  · cases ho : fl.createOutputStreamOk
    · rw [save_of_no_stream P fl this w h1 h2 hx ho]
      exact saveCount_saveWorld P fl this w
    · cases hm : fl.moveFileOk
      · rw [save_of_move_failure P fl this w h1 h2 hx ho hm]
        have := saveCount_saveWorld P fl this w
        simp only [saveCount] at this ⊢
        simp [writtenWorld, World.deleteFile, World.write, World.setFile, World.log,
          List.count_append, List.count_singleton, this]
      · rw [save_of_move_success P fl this w h1 h2 hx ho hm]
        have := saveCount_saveWorld P fl this w
        simp only [saveCount] at this ⊢
        unfold World.moveFileTo
        simp only [hm, if_true]
        split_ifs <;>
          simp [writtenWorld, World.write, World.setFile, World.log,
            List.count_append, List.count_singleton, this]
  · rw [save_of_xml P fl this w h1 h2 hx]
    have := saveCount_saveWorld P fl this w
    simp only [saveCount] at this ⊢
    unfold World.writeToFile
    split_ifs <;>
      simp [World.setFile, World.log, List.count_append, List.count_singleton, this]

/-- While no callback is due, letting time pass only moves the clock. -/
theorem elapseTo_idle (P : Platform) (fl : Int → Faults) (t : Int)
    (sw : PropertiesFile × World)
    (h : ¬ (0 < sw.1.timer.periodMs ∧ sw.1.timer.due ≤ t)) :
    elapseTo P fl t sw = (sw.1, { sw.2 with now := t }) := by
  unfold elapseTo
  rw [deliverCallbacks]
  simp only [h, if_false]

/-- A callback that is due on a store with unsaved changes calls `save` once,
at the time it is due, and no further callback follows. -/
theorem elapseTo_fire (P : Platform) (fl : Int → Faults) (t : Int)
    (sw : PropertiesFile × World)
    (hp : 0 < sw.1.timer.periodMs) (hdue : sw.1.timer.due ≤ t)
    (hdirty : sw.1.needsWriting = true) :
    elapseTo P fl t sw
      = ((PropertiesFile.save P (fl sw.1.timer.due)
            { sw.1 with timer := ⟨sw.1.timer.periodMs, sw.1.timer.due + sw.1.timer.periodMs⟩ }
            { sw.2 with now := sw.1.timer.due }).2.1,
         { (PropertiesFile.save P (fl sw.1.timer.due)
            { sw.1 with timer := ⟨sw.1.timer.periodMs, sw.1.timer.due + sw.1.timer.periodMs⟩ }
            { sw.2 with now := sw.1.timer.due }).2.2 with now := t }) := by
  unfold elapseTo
  rw [deliverCallbacks]
  simp only [hp, hdue, and_self, if_true]
  rw [deliverCallbacks]
  have hcb : PropertiesFile.timerCallback P (fl sw.1.timer.due)
      { sw.1 with timer := ⟨sw.1.timer.periodMs, sw.1.timer.due + sw.1.timer.periodMs⟩ }
      { sw.2 with now := sw.1.timer.due }
      = (PropertiesFile.save P (fl sw.1.timer.due)
          { sw.1 with timer := ⟨sw.1.timer.periodMs, sw.1.timer.due + sw.1.timer.periodMs⟩ }
          { sw.2 with now := sw.1.timer.due }).2 := by
    unfold PropertiesFile.timerCallback
    exact congrArg Prod.snd (saveIfNeeded_dirty P (fl sw.1.timer.due)
      { sw.1 with timer := ⟨sw.1.timer.periodMs, sw.1.timer.due + sw.1.timer.periodMs⟩ }
      { sw.2 with now := sw.1.timer.due } hdirty)
  rw [hcb]
  have hstop := (save_frame P (fl sw.1.timer.due)
    { sw.1 with timer := ⟨sw.1.timer.periodMs, sw.1.timer.due + sw.1.timer.periodMs⟩ }
    { sw.2 with now := sw.1.timer.due }).2.2.2.2
  simp only [hstop, lt_self_iff_false, false_and, if_false]

/-- A mutation on a store with a positive interval marks the store, restarts
the timer for the interval counted from now, and saves nothing. -/
theorem setValue_positive (P : Platform) (fl : Faults) (s : PropertiesFile) (w : World)
    (key value : JString) (h : 0 < s.timerInterval) :
    (PropertiesFile.setValue P fl s w key value).2 = w
    ∧ (PropertiesFile.setValue P fl s w key value).1.timer
        = ⟨s.timerInterval, w.now + s.timerInterval⟩
    ∧ (PropertiesFile.setValue P fl s w key value).1.needsWriting = true
    ∧ (PropertiesFile.setValue P fl s w key value).1.timerInterval = s.timerInterval := by
  have hmax : max 1 s.timerInterval = s.timerInterval := max_eq_right (by omega)
  simp [PropertiesFile.setValue, PropertiesFile.propertyChanged,
    PropertiesFile.sendChangeMessage, PropertiesFile.startTimer, h, hmax]

theorem mutateAt_first (P : Platform) (fl : Int → Faults) (d : Int) (hd : 0 < d)
    (sw : PropertiesFile × World) (m : Int × JString × JString)
    (hint : sw.1.timerInterval = d) (hidle : sw.1.isTimerRunning = false) :
    Pending d m.1 (saveCount sw.2) (mutateAt P fl sw m) := by
  have hno : ¬ (0 < sw.1.timer.periodMs ∧ sw.1.timer.due ≤ m.1) := by
    simp only [PropertiesFile.isTimerRunning, decide_eq_false_iff_not] at hidle
    exact fun h => hidle h.1
  unfold mutateAt
  simp only [elapseTo_idle P fl m.1 sw hno]
  have hpos : 0 < sw.1.timerInterval := by omega
  obtain ⟨h1, h2, h3, h4⟩ := setValue_positive P (fl m.1) sw.1 { sw.2 with now := m.1 }
    m.2.1 m.2.2 hpos
  refine ⟨?_, h3, ?_, ?_⟩
  · rw [h2, hint]
  · rw [h4, hint]
  · rw [h1]; rfl

theorem mutateAt_next (P : Platform) (fl : Int → Faults) (d t : Int) (c : Nat) (hd : 0 < d)
    (sw : PropertiesFile × World) (m : Int × JString × JString)
    (hinv : Pending d t c sw) (hlt : m.1 < t + d) :
    Pending d m.1 c (mutateAt P fl sw m) := by
  obtain ⟨ht, hdirty, hint, hc⟩ := hinv
  have hno : ¬ (0 < sw.1.timer.periodMs ∧ sw.1.timer.due ≤ m.1) := by
    rw [ht]
    simp only [not_and, not_le]
    intro _
    exact hlt
  unfold mutateAt
  simp only [elapseTo_idle P fl m.1 sw hno]
  have hpos : 0 < sw.1.timerInterval := by omega
  obtain ⟨h1, h2, h3, h4⟩ := setValue_positive P (fl m.1) sw.1 { sw.2 with now := m.1 }
    m.2.1 m.2.2 hpos
  refine ⟨?_, h3, ?_, ?_⟩
  · rw [h2, hint]
  · rw [h4, hint]
  · rw [h1]; exact hc

theorem runMutations_pending (P : Platform) (fl : Int → Faults) (d : Int) (c : Nat)
    (hd : 0 < d) (rest : List (Int × JString × JString)) :
    ∀ (t : Int) (sw : PropertiesFile × World), Pending d t c sw →
      List.Chain (fun a b => a ≤ b ∧ b < a + d) t (rest.map (fun m => m.1)) →
      Pending d (lastTime t rest) c (runMutations P fl sw rest) := by
  induction rest with
  | nil => intro t sw hinv _; exact hinv
  | cons m tl ih =>
    intro t sw hinv hch
    simp only [List.map_cons, List.chain_cons] at hch
    have hstep := mutateAt_next P fl d t c hd sw m hinv hch.1.2
    exact ih m.1 (mutateAt P fl sw m) hstep hch.2

theorem lastTime_append_singleton (pre : List (Int × JString × JString)) :
    ∀ (t : Int) (x : Int × JString × JString), lastTime t (pre ++ [x]) = x.1 := by
  induction pre with
  | nil => intro t x; rfl
  | cons p tl ih => intro t x; exact ih p.1 x

/-- C10. Debounce coalescing: a store with a positive interval `d` whose timer
is idle receives a mutation `m` and then the mutations `rest`, each not
earlier than the one before and less than `d` after it, with nothing else in
between. After every one of these mutations the timer is due `d` after that
mutation and no save has been made; when time passes to any `T` before the
last mutation plus `d`, still no save has been made; when it passes to any `T`
from the last mutation plus `d` on, exactly one save has been made and the
timer is idle. -/
theorem debounce_coalescing (P : Platform) (fl : Int → Faults) (s : PropertiesFile)
    (w : World) (d : Int) (m : Int × JString × JString)
    (rest : List (Int × JString × JString))
    (hd : 0 < d) (hint : s.timerInterval = d) (hidle : s.isTimerRunning = false)
    (hchain : List.Chain (fun a b => a ≤ b ∧ b < a + d) m.1 (rest.map (fun x => x.1))) :
    (∀ pre x post, m :: rest = pre ++ x :: post →
        (runMutations P fl (s, w) (pre ++ [x])).1.timer = ⟨d, x.1 + d⟩
        ∧ saveCount (runMutations P fl (s, w) (pre ++ [x])).2 = saveCount w)
    ∧ (∀ T, T < lastTime m.1 rest + d →
        saveCount (elapseTo P fl T (runMutations P fl (s, w) (m :: rest))).2 = saveCount w)
    ∧ (∀ T, lastTime m.1 rest + d ≤ T →
        saveCount (elapseTo P fl T (runMutations P fl (s, w) (m :: rest))).2
          = saveCount w + 1
        ∧ (elapseTo P fl T (runMutations P fl (s, w) (m :: rest))).1.isTimerRunning
          = false) := by
  have hfirst : Pending d m.1 (saveCount w) (mutateAt P fl (s, w) m) :=
    mutateAt_first P fl d hd (s, w) m hint hidle
  have hall : Pending d (lastTime m.1 rest) (saveCount w)
      (runMutations P fl (s, w) (m :: rest)) :=
    runMutations_pending P fl d (saveCount w) hd rest m.1 _ hfirst hchain
  refine ⟨?_, ?_, ?_⟩
  · intro pre x post hsplit
    cases pre with
    | nil =>
      simp only [List.nil_append, List.cons.injEq] at hsplit
      obtain ⟨rfl, _⟩ := hsplit
      exact ⟨hfirst.1, hfirst.2.2.2⟩
    | cons p pre2 =>
      simp only [List.cons_append, List.cons.injEq] at hsplit
      obtain ⟨rfl, hrest⟩ := hsplit
      rw [hrest, List.map_append, List.map_cons, List.chain_split] at hchain
      have hch : List.Chain (fun a b => a ≤ b ∧ b < a + d) m.1
          ((pre2 ++ [x]).map (fun x => x.1)) := by
        simpa using hchain.1
      have hp := runMutations_pending P fl d (saveCount w) hd (pre2 ++ [x]) m.1 _ hfirst hch
      rw [lastTime_append_singleton] at hp
      exact ⟨hp.1, hp.2.2.2⟩
  · intro T hT
    obtain ⟨ht, _, _, hc⟩ := hall
    have hno : ¬ (0 < (runMutations P fl (s, w) (m :: rest)).1.timer.periodMs
        ∧ (runMutations P fl (s, w) (m :: rest)).1.timer.due ≤ T) := by
      rw [ht]
      simp only [not_and, not_le]
      intro _
      exact hT
    rw [elapseTo_idle P fl T _ hno]
    exact hc
  · intro T hT
    obtain ⟨ht, hdirty, _, hc⟩ := hall
    have hp : 0 < (runMutations P fl (s, w) (m :: rest)).1.timer.periodMs := by
      rw [ht]; exact hd
    have hdue : (runMutations P fl (s, w) (m :: rest)).1.timer.due ≤ T := by
      rw [ht]; exact hT
    rw [elapseTo_fire P fl T _ hp hdue hdirty]
    refine ⟨?_, ?_⟩
    · have := saveCount_save P
        (fl (runMutations P fl (s, w) (m :: rest)).1.timer.due)
        { (runMutations P fl (s, w) (m :: rest)).1 with
          timer := ⟨(runMutations P fl (s, w) (m :: rest)).1.timer.periodMs,
            (runMutations P fl (s, w) (m :: rest)).1.timer.due
              + (runMutations P fl (s, w) (m :: rest)).1.timer.periodMs⟩ }
        { (runMutations P fl (s, w) (m :: rest)).2 with
          now := (runMutations P fl (s, w) (m :: rest)).1.timer.due }
      simp only [saveCount] at this hc ⊢
      rw [this, hc]
    · have hstop := (save_frame P
        (fl (runMutations P fl (s, w) (m :: rest)).1.timer.due)
        { (runMutations P fl (s, w) (m :: rest)).1 with
          timer := ⟨(runMutations P fl (s, w) (m :: rest)).1.timer.periodMs,
            (runMutations P fl (s, w) (m :: rest)).1.timer.due
              + (runMutations P fl (s, w) (m :: rest)).1.timer.periodMs⟩ }
        { (runMutations P fl (s, w) (m :: rest)).2 with
          now := (runMutations P fl (s, w) (m :: rest)).1.timer.due }).2.2.2.2
      simp [PropertiesFile.isTimerRunning, hstop]

theorem debounce_coalescing_witness :
    saveCount (elapseTo refPlatform (fun _ => Faults.none) 949
        (runMutations refPlatform (fun _ => Faults.none) debouncedStore
          ((0, T "volume", T "8") :: exampleBurst))).2 = 0
    ∧ saveCount (elapseTo refPlatform (fun _ => Faults.none) 950
        (runMutations refPlatform (fun _ => Faults.none) debouncedStore
          ((0, T "volume", T "8") :: exampleBurst))).2 = 1 :=
  have h := debounce_coalescing refPlatform (fun _ => Faults.none) debouncedStore.1
    debouncedStore.2 500 (0, T "volume", T "8") exampleBurst
    (by decide) (by decide) (by decide)
    (List.Chain.cons ⟨by decide, by decide⟩
      (List.Chain.cons ⟨by decide, by decide⟩ List.Chain.nil))
  ⟨h.2.1 949 (by decide), (h.2.2 950 (by decide)).1⟩

/-! ## Keys stay unique -/

/-- Every key of the entries after `set` is a key from before or the key set. -/
theorem setEntry_keys (ic : Bool) (es : List (JString × JString)) (k v : JString) :
    ∀ b ∈ setEntry ic es k v, (∃ a ∈ es, a.1 = b.1) ∨ b.1 = k := by
  induction es with
  | nil =>
    intro b hb
    simp only [setEntry, List.mem_singleton] at hb
    exact Or.inr (by rw [hb])
  | cons e tl ih =>
    obtain ⟨k0, v0⟩ := e
    intro b hb
    simp only [setEntry] at hb
    split_ifs at hb with hmatch
    · rcases List.mem_cons.1 hb with rfl | hb
      · exact Or.inl ⟨(k0, v0), List.mem_cons_self _ _, rfl⟩
      · exact Or.inl ⟨b, List.mem_cons_of_mem _ hb, rfl⟩
    · rcases List.mem_cons.1 hb with rfl | hb
      · exact Or.inl ⟨(k0, v0), List.mem_cons_self _ _, rfl⟩
      · rcases ih b hb with ⟨a, ha, hab⟩ | hk
        · exact Or.inl ⟨a, List.mem_cons_of_mem _ ha, hab⟩
        · exact Or.inr hk

/-- The operation `set` keeps the keys pairwise different under the policy of the array. -/
theorem setEntry_pairwise (ic : Bool) (es : List (JString × JString)) (k v : JString)
    (h : es.Pairwise (fun a b => keyMatches ic a.1 b.1 = false)) :
    (setEntry ic es k v).Pairwise (fun a b => keyMatches ic a.1 b.1 = false) := by
  induction es with
  | nil => simp [setEntry]
  | cons e tl ih =>
    obtain ⟨k0, v0⟩ := e
    rw [List.pairwise_cons] at h
    simp only [setEntry]
    split_ifs with hmatch
    · rw [List.pairwise_cons]
      exact ⟨fun b hb => h.1 b hb, h.2⟩
    · rw [List.pairwise_cons]
      refine ⟨?_, ih h.2⟩
      intro b hb
      rcases setEntry_keys ic tl k v b hb with ⟨a, ha, hab⟩ | hk
      · rw [← hab]; exact h.1 a ha
      · rw [hk]; simpa using hmatch

/-! ## The mutation notification -/

/-- The function `save` sends no change message. -/
theorem save_changeMessages (P : Platform) (fl : Faults) (this : PropertiesFile) (w : World) :
    (this.save P fl w).2.1.changeMessages = this.changeMessages := by
  by_cases h1 : this.file = File.nonexistent ∨ w.isDirectory this.file = true
  · rw [save_of_bad_target P fl this w h1]; rfl
  cases h2 : (w.createDirectory fl (P.getParentDirectory this.file)).1
  · rw [save_of_no_directory P fl this w h1 h2]; rfl
  by_cases hx : this.options &&& storeAsXML = 0
  · cases ho : fl.createOutputStreamOk
    · rw [save_of_no_stream P fl this w h1 h2 hx ho]; rfl
    · cases hm : fl.moveFileOk
      · rw [save_of_move_failure P fl this w h1 h2 hx ho hm]; rfl
      · rw [save_of_move_success P fl this w h1 h2 hx ho hm]; rfl
  · rw [save_of_xml P fl this w h1 h2 hx]; rfl

/-- A mutation notification sends one change message and leaves the mapping alone. -/
theorem propertyChanged_frame (P : Platform) (fl : Faults) (this : PropertiesFile)
    (w : World) :
    (this.propertyChanged P fl w).1.changeMessages = this.changeMessages + 1
    ∧ (this.propertyChanged P fl w).1.properties = this.properties
    ∧ (this.propertyChanged P fl w).1.timerInterval = this.timerInterval := by
  by_cases hpos : 0 < this.timerInterval
  · simp [PropertiesFile.propertyChanged, PropertiesFile.sendChangeMessage,
      PropertiesFile.startTimer, hpos]
  · by_cases hzero : this.timerInterval = 0
    · have hsin : PropertiesFile.propertyChanged P fl this w
          = (PropertiesFile.save P fl
              { this.sendChangeMessage with needsWriting := true } w).2 := by
        have hsave : PropertiesFile.saveIfNeeded P fl
              { this.sendChangeMessage with needsWriting := true } w
            = PropertiesFile.save P fl { this.sendChangeMessage with needsWriting := true }
                w :=
          saveIfNeeded_dirty P fl _ w rfl
        rw [← hsave]
        simp [PropertiesFile.propertyChanged, PropertiesFile.sendChangeMessage, hzero]
      rw [hsin]
      have hf := save_frame P fl { this.sendChangeMessage with needsWriting := true } w
      have hc := save_changeMessages P fl
        { this.sendChangeMessage with needsWriting := true } w
      exact ⟨hc, hf.1, hf.2.2.2.1⟩
    · simp [PropertiesFile.propertyChanged, PropertiesFile.sendChangeMessage, hpos, hzero]

/-- A negative interval: the store is marked, nothing else happens. -/
theorem propertyChanged_negative (P : Platform) (fl : Faults) (this : PropertiesFile)
    (w : World) (hneg : this.timerInterval < 0) :
    (this.propertyChanged P fl w).1.needsToBeSaved = true
    ∧ (this.propertyChanged P fl w).1.timer = this.timer
    ∧ (this.propertyChanged P fl w).2 = w := by
  have h1 : ¬ 0 < this.timerInterval := by omega
  have h2 : ¬ this.timerInterval = 0 := by omega
  simp [PropertiesFile.propertyChanged, PropertiesFile.sendChangeMessage,
    PropertiesFile.needsToBeSaved, h1, h2]

/-- A zero interval: the marked store is saved at once. -/
theorem propertyChanged_zero (P : Platform) (fl : Faults) (this : PropertiesFile)
    (w : World) (hzero : this.timerInterval = 0) :
    this.propertyChanged P fl w
        = (PropertiesFile.saveIfNeeded P fl
            { this.sendChangeMessage with needsWriting := true } w).2
    ∧ this.propertyChanged P fl w
        = (PropertiesFile.save P fl
            { this.sendChangeMessage with needsWriting := true } w).2
    ∧ (this.propertyChanged P fl w).1.isTimerRunning = false := by
  have hsin : PropertiesFile.propertyChanged P fl this w
      = (PropertiesFile.saveIfNeeded P fl
          { this.sendChangeMessage with needsWriting := true } w).2 := by
    simp [PropertiesFile.propertyChanged, PropertiesFile.sendChangeMessage, hzero]
  have hsave : PropertiesFile.saveIfNeeded P fl
        { this.sendChangeMessage with needsWriting := true } w
      = PropertiesFile.save P fl { this.sendChangeMessage with needsWriting := true } w :=
    saveIfNeeded_dirty P fl _ w rfl
  refine ⟨hsin, by rw [hsin, hsave], ?_⟩
  rw [hsin, hsave]
  have hstop := (save_frame P fl { this.sendChangeMessage with needsWriting := true }
    w).2.2.2.2
  simp [PropertiesFile.isTimerRunning, hstop]

/-- A positive interval: the store is marked and the timer restarted. -/
theorem propertyChanged_positive (P : Platform) (fl : Faults) (this : PropertiesFile)
    (w : World) (hpos : 0 < this.timerInterval) :
    (this.propertyChanged P fl w).1.needsToBeSaved = true
    ∧ (this.propertyChanged P fl w).2 = w
    ∧ (this.propertyChanged P fl w).1.isTimerRunning = true
    ∧ (this.propertyChanged P fl w).1.timer
        = ⟨this.timerInterval, w.now + this.timerInterval⟩ := by
  have hmax : max 1 this.timerInterval = this.timerInterval := max_eq_right (by omega)
  simp [PropertiesFile.propertyChanged, PropertiesFile.sendChangeMessage,
    PropertiesFile.startTimer, PropertiesFile.needsToBeSaved, PropertiesFile.isTimerRunning,
    hpos, hmax]

/-- C11. Effect of `propertyChanged` by the sign of the interval. In every
case a change message is sent and the mapping is untouched. With a negative
interval the store is marked as needing a save, the timer is left as it was
and the world is unchanged. With a zero interval the result is that of
`saveIfNeeded` on the marked store, which is that of `save`, and the timer is
idle afterwards. With a positive interval the store is marked, the world is
unchanged, and the timer runs with that interval and is due the interval
after now. -/
theorem propertyChanged_by_interval (P : Platform) (fl : Faults) (this : PropertiesFile)
    (w : World) :
    (this.timerInterval < 0 →
        (this.propertyChanged P fl w).1.needsToBeSaved = true
        ∧ (this.propertyChanged P fl w).1.timer = this.timer
        ∧ (this.propertyChanged P fl w).2 = w)
    ∧ (this.timerInterval = 0 →
        this.propertyChanged P fl w
          = (PropertiesFile.saveIfNeeded P fl
              { this.sendChangeMessage with needsWriting := true } w).2
        ∧ this.propertyChanged P fl w
          = (PropertiesFile.save P fl
              { this.sendChangeMessage with needsWriting := true } w).2
        ∧ (this.propertyChanged P fl w).1.isTimerRunning = false)
    ∧ (0 < this.timerInterval →
        (this.propertyChanged P fl w).1.needsToBeSaved = true
        ∧ (this.propertyChanged P fl w).2 = w
        ∧ (this.propertyChanged P fl w).1.isTimerRunning = true
        ∧ (this.propertyChanged P fl w).1.timer
            = ⟨this.timerInterval, w.now + this.timerInterval⟩)
    ∧ (this.propertyChanged P fl w).1.changeMessages = this.changeMessages + 1
    ∧ (this.propertyChanged P fl w).1.getAllProperties = this.getAllProperties := by
  refine ⟨?_, ?_, ?_, ?_, ?_⟩
  · exact propertyChanged_negative P fl this w
  · exact propertyChanged_zero P fl this w
  · exact propertyChanged_positive P fl this w
  · exact (propertyChanged_frame P fl this w).1
  · exact (propertyChanged_frame P fl this w).2.1

theorem propertyChanged_by_interval_witness :
    (((exampleStore storeAsBinary (-1) exampleEntries).propertyChanged refPlatform Faults.none
        emptyWorld).1.needsToBeSaved = true
      ∧ ((exampleStore storeAsBinary (-1) exampleEntries).propertyChanged refPlatform
        Faults.none emptyWorld).1.timer = ⟨0, 0⟩)
    ∧ ((exampleStore storeAsBinary 0 exampleEntries).propertyChanged refPlatform Faults.none
        emptyWorld).1.isTimerRunning = false
    ∧ ((exampleStore storeAsBinary 500 exampleEntries).propertyChanged refPlatform Faults.none
        emptyWorld).1.timer = ⟨500, 500⟩ :=
  have hneg := (propertyChanged_by_interval refPlatform Faults.none
    (exampleStore storeAsBinary (-1) exampleEntries) emptyWorld).1 (by decide)
  have hzero := (propertyChanged_by_interval refPlatform Faults.none
    (exampleStore storeAsBinary 0 exampleEntries) emptyWorld).2.1 rfl
  have hpos := (propertyChanged_by_interval refPlatform Faults.none
    (exampleStore storeAsBinary 500 exampleEntries) emptyWorld).2.2.1 (by decide)
  ⟨⟨hneg.1, hneg.2.1⟩, hzero.2.2, hpos.2.2.2⟩

/-! ## The scheduler returns to idle -/

/-- What the constructor sets apart from the mapping: the store does not need
saving, its timer is stopped, and path, interval and options are the
arguments. -/
theorem new_frame (P : Platform) (fl : Faults) (w : World) (f : File) (ms : Int)
    (opts : Nat) :
    (PropertiesFile.new P fl w f ms opts).needsWriting = false
    ∧ (PropertiesFile.new P fl w f ms opts).timer = ⟨0, 0⟩
    ∧ (PropertiesFile.new P fl w f ms opts).file = f
    ∧ (PropertiesFile.new P fl w f ms opts).timerInterval = ms
    ∧ (PropertiesFile.new P fl w f ms opts).options = opts
    ∧ (PropertiesFile.new P fl w f ms opts).changeMessages = 0 := by
  unfold PropertiesFile.new
  cases w.createInputStream fl f with
  | none => simp
  | some content =>
    simp only []
    by_cases hmagic : (if decide ((readInt content).1 = propFileMagicNumberCompressed) = true
        then propFileMagicNumber else (readInt content).1) = propFileMagicNumber
    · simp only [hmagic, if_true, and_self]
    · simp only [hmagic, if_false]
      cases P.getDocumentElement true content with
      | none => simp
      | some outer =>
        simp only []
        by_cases htag : outer.hasTagName propertyFileXmlTag = true
        · simp only [htag, if_true]
          cases P.getDocumentElement false content <;> simp
        · simp [htag]

theorem timerInvariant_new (P : Platform) (fl : Faults) (w : World) (f : File) (ms : Int)
    (opts : Nat) : TimerInvariant (PropertiesFile.new P fl w f ms opts) := by
  have h := new_frame P fl w f ms opts
  unfold TimerInvariant PropertiesFile.isTimerRunning
  rw [h.2.1]
  simp

/-- After `save` the timer is stopped, so the invariant holds. -/
theorem timerInvariant_save (P : Platform) (fl : Faults) (s : PropertiesFile) (w : World) :
    TimerInvariant (s.save P fl w).2.1 ∧ (s.save P fl w).2.1.isTimerRunning = false := by
  have h := (save_frame P fl s w).2.2.2.2
  unfold TimerInvariant PropertiesFile.isTimerRunning
  rw [h]
  simp

theorem timerInvariant_saveIfNeeded (P : Platform) (fl : Faults) (s : PropertiesFile)
    (w : World) (hinv : TimerInvariant s) : TimerInvariant (s.saveIfNeeded P fl w).2.1 := by
  cases hd : s.needsWriting
  · rw [saveIfNeeded_clean P fl s w hd]; exact hinv
  · rw [saveIfNeeded_dirty P fl s w hd]; exact (timerInvariant_save P fl s w).1

/-- A mutation notification keeps the invariant; the mapping plays no part. -/
theorem timerInvariant_propertyChanged (P : Platform) (fl : Faults) (s : PropertiesFile)
    (w : World) (hinv : TimerInvariant s) :
    TimerInvariant (s.propertyChanged P fl w).1 := by
  have hint := (propertyChanged_frame P fl s w).2.2
  unfold TimerInvariant
  rw [hint]
  rcases lt_trichotomy s.timerInterval 0 with h | h | h
  · obtain ⟨h1, h2, _⟩ := propertyChanged_negative P fl s w h
    refine ⟨fun _ => h1, fun _ => ?_⟩
    unfold PropertiesFile.isTimerRunning
    rw [h2]
    exact hinv.2 (by omega)
  · obtain ⟨_, _, h3⟩ := propertyChanged_zero P fl s w h
    refine ⟨fun hr => ?_, fun _ => h3⟩
    rw [h3] at hr
    cases hr
  · obtain ⟨h1, _, _, _⟩ := propertyChanged_positive P fl s w h
    exact ⟨fun _ => h1, fun hle => by omega⟩

/-- On a store that satisfies the invariant, a firing of the timer leaves the
timer stopped, whatever the outcome of the save. -/
theorem fireTimer_idle (P : Platform) (fl : Faults) (sw : PropertiesFile × World)
    (hinv : TimerInvariant sw.1) :
    (fireTimer P fl sw).1.isTimerRunning = false ∧ TimerInvariant (fireTimer P fl sw).1 := by
  unfold fireTimer
  by_cases hrun : 0 < sw.1.timer.periodMs
  · have hdirty : sw.1.needsWriting = true :=
      hinv.1 (by simp [PropertiesFile.isTimerRunning, hrun])
    have hs := saveIfNeeded_dirty P fl
      { sw.1 with timer := ⟨sw.1.timer.periodMs, sw.1.timer.due + sw.1.timer.periodMs⟩ }
      sw.2 hdirty
    have hstop := timerInvariant_save P fl
      { sw.1 with timer := ⟨sw.1.timer.periodMs, sw.1.timer.due + sw.1.timer.periodMs⟩ }
      sw.2
    rw [if_pos hrun]
    unfold PropertiesFile.timerCallback
    rw [hs]
    exact ⟨hstop.2, hstop.1⟩
  · simp only [hrun, if_false]
    exact ⟨by simp [PropertiesFile.isTimerRunning, hrun], hinv⟩

/-- One pass of the timer thread is a firing of the timer at its due time. -/
theorem deliverCallbacks_succ (P : Platform) (fl : Int → Faults) (t : Int) (fuel : Nat)
    (sw : PropertiesFile × World) :
    deliverCallbacks P fl t (fuel + 1) sw
      = if 0 < sw.1.timer.periodMs ∧ sw.1.timer.due ≤ t then
          deliverCallbacks P fl t fuel
            (fireTimer P (fl sw.1.timer.due) (sw.1, { sw.2 with now := sw.1.timer.due }))
        else (sw.1, { sw.2 with now := t }) := by
  rw [deliverCallbacks]
  by_cases h : 0 < sw.1.timer.periodMs ∧ sw.1.timer.due ≤ t
  · simp only [h, and_self, if_true, fireTimer]
  · simp only [h, if_false]

theorem timerInvariant_deliverCallbacks (P : Platform) (fl : Int → Faults) (t : Int)
    (fuel : Nat) :
    ∀ sw : PropertiesFile × World, TimerInvariant sw.1 →
      TimerInvariant (deliverCallbacks P fl t fuel sw).1 := by
  induction fuel with
  | zero => intro sw hinv; exact hinv
  | succ n ih =>
    intro sw hinv
    rw [deliverCallbacks_succ]
    by_cases hdue : 0 < sw.1.timer.periodMs ∧ sw.1.timer.due ≤ t
    · rw [if_pos hdue]
      exact ih (fireTimer P (fl sw.1.timer.due) (sw.1, { sw.2 with now := sw.1.timer.due }))
        (fireTimer_idle P (fl sw.1.timer.due) (sw.1, { sw.2 with now := sw.1.timer.due })
          hinv).2
    · rw [if_neg hdue]
      exact hinv

/-- Every operation keeps the invariant. -/
theorem timerInvariant_perform (P : Platform) (sw : PropertiesFile × World)
    (op : Faults × Operation) (hinv : TimerInvariant sw.1) :
    TimerInvariant (perform P sw op).1 := by
  obtain ⟨fl, o⟩ := op
  cases o with
  | set key value =>
    exact timerInvariant_propertyChanged P fl _ sw.2 hinv
  | remove key =>
    exact timerInvariant_propertyChanged P fl _ sw.2 hinv
  | save => exact (timerInvariant_save P fl sw.1 sw.2).1
  | saveIfNeeded => exact timerInvariant_saveIfNeeded P fl sw.1 sw.2 hinv
  | timerFires => exact (fireTimer_idle P fl sw hinv).2
  | elapse faultsAt t => exact timerInvariant_deliverCallbacks P faultsAt t _ sw hinv
  | surroundings w => exact hinv

theorem timerInvariant_foldl (P : Platform) (ops : List (Faults × Operation)) :
    ∀ sw : PropertiesFile × World, TimerInvariant sw.1 →
      TimerInvariant (ops.foldl (perform P) sw).1 := by
  induction ops with
  | nil => intro sw h; exact h
  | cons op tl ih => intro sw h; exact ih _ (timerInvariant_perform P sw op h)

/-- C12. In every state reached from the construction of a store by
mutations, `save`, `saveIfNeeded`, firings of the timer, the passing of time
and changes of the surroundings, the timer runs only while the store needs
saving, so that the callback of a running timer is a call of `save`; and a
firing of the timer, and `timerCallback` itself, leave the timer stopped,
whatever fault outcomes the save meets. -/
theorem timer_firing_leaves_idle (P : Platform) (fl0 : Faults) (w0 : World) (f : File)
    (millisecondsBeforeSaving : Int) (options_ : Nat) (ops : List (Faults × Operation))
    (fl : Faults) :
    ((reach P fl0 w0 f millisecondsBeforeSaving options_ ops).1.isTimerRunning = true →
        (reach P fl0 w0 f millisecondsBeforeSaving options_ ops).1.needsToBeSaved = true
        ∧ PropertiesFile.timerCallback P fl
            (reach P fl0 w0 f millisecondsBeforeSaving options_ ops).1
            (reach P fl0 w0 f millisecondsBeforeSaving options_ ops).2
          = (PropertiesFile.save P fl
              (reach P fl0 w0 f millisecondsBeforeSaving options_ ops).1
              (reach P fl0 w0 f millisecondsBeforeSaving options_ ops).2).2)
    ∧ (fireTimer P fl
        (reach P fl0 w0 f millisecondsBeforeSaving options_ ops)).1.isTimerRunning = false
    ∧ (PropertiesFile.timerCallback P fl
        (reach P fl0 w0 f millisecondsBeforeSaving options_ ops).1
        (reach P fl0 w0 f millisecondsBeforeSaving options_ ops).2).1.isTimerRunning
          = false := by
  have hinv : TimerInvariant (reach P fl0 w0 f millisecondsBeforeSaving options_ ops).1 :=
    timerInvariant_foldl P ops _ (timerInvariant_new P fl0 w0 f millisecondsBeforeSaving options_)
  refine ⟨fun hr => ⟨hinv.1 hr, ?_⟩, (fireTimer_idle P fl _ hinv).1, ?_⟩
  · unfold PropertiesFile.timerCallback
    rw [saveIfNeeded_dirty P fl _ _ (hinv.1 hr)]
  unfold PropertiesFile.timerCallback
  cases hd : (reach P fl0 w0 f millisecondsBeforeSaving options_ ops).1.needsWriting
  · rw [saveIfNeeded_clean P fl _ _ hd]
    cases hr : (reach P fl0 w0 f millisecondsBeforeSaving options_ ops).1.isTimerRunning
    · rfl
    · have := hinv.1 hr
      rw [hd] at this
      cases this
  · rw [saveIfNeeded_dirty P fl _ _ hd]
    exact (timerInvariant_save P fl _ _).2

theorem timer_firing_leaves_idle_witness :
    (reach refPlatform Faults.none emptyWorld exampleFile 500 storeAsBinary
        oneMutation).1.isTimerRunning = true
    ∧ (fireTimer refPlatform ⟨true, true, true, false, true⟩
        (reach refPlatform Faults.none emptyWorld exampleFile 500 storeAsBinary
          oneMutation)).1.isTimerRunning = false :=
  ⟨by decide,
    (timer_firing_leaves_idle refPlatform Faults.none emptyWorld exampleFile 500
      storeAsBinary oneMutation ⟨true, true, true, false, true⟩).2.1⟩

/-! ## Decoding a damaged binary stream -/

theorem readInt_length (s : List Byte) : (readInt s).2.length ≤ s.length := by
  unfold readInt
  split <;> simp
  omega

theorem readInt_length_lt (s : List Byte) (h : s ≠ []) : (readInt s).2.length < s.length := by
  unfold readInt
  split
  · simp only [List.length_cons]
    omega
  · simp only [List.length_nil]
    exact List.length_pos.2 h

theorem readString_length (s : List Byte) : (readString s).2.length ≤ s.length := by
  unfold readString
  simp only [List.length_drop]
  have := readInt_length s
  omega

theorem readString_length_lt (s : List Byte) (h : s ≠ []) :
    (readString s).2.length < s.length := by
  unfold readString
  simp only [List.length_drop]
  have := readInt_length_lt s h
  omega

/-- One more pass than the length of the stream changes nothing. -/
theorem readValues_fuel_succ (fuel : Nat) :
    ∀ (n : Int) (input : List Byte) (props : StringPairArray), input.length ≤ fuel →
      readValues (fuel + 1) n input props = readValues fuel n input props := by
  induction fuel with
  | zero =>
    intro n input props h
    have hnil : input = [] := List.length_eq_zero.1 (by omega)
    subst hnil
    simp [readValues, isExhausted]
  | succ k ih =>
    intro n input props h
    have hL : readValues (k + 1 + 1) n input props
        = if 0 ≤ wrapInt (n - 1) ∧ isExhausted input = false then
            readValues (k + 1) (wrapInt (n - 1)) (readString (readString input).2).2
              (if (readString input).1 ≠ [] then
                props.set (readString input).1 (readString (readString input).2).1
              else props)
          else props := by
      rw [readValues]
    have hR : readValues (k + 1) n input props
        = if 0 ≤ wrapInt (n - 1) ∧ isExhausted input = false then
            readValues k (wrapInt (n - 1)) (readString (readString input).2).2
              (if (readString input).1 ≠ [] then
                props.set (readString input).1 (readString (readString input).2).1
              else props)
          else props := by
      rw [readValues]
    rw [hL, hR]
    by_cases hc : 0 ≤ wrapInt (n - 1) ∧ isExhausted input = false
    · rw [if_pos hc, if_pos hc]
      have hne : input ≠ [] := by
        intro e
        rw [e] at hc
        simp [isExhausted] at hc
      have h1 := readString_length_lt input hne
      have h2 := readString_length (readString input).2
      exact ih (wrapInt (n - 1)) (readString (readString input).2).2 _ (by omega)
    · rw [if_neg hc, if_neg hc]

/-- The loop ends for every count and every stream: the bound the constructor
passes is enough, a larger one gives the same result. -/
theorem readValues_fuel (fuel : Nat) (n : Int) (input : List Byte) (props : StringPairArray)
    (h : input.length ≤ fuel) :
    readValues fuel n input props = readValues input.length n input props := by
  induction fuel with
  | zero =>
    have hnil : input.length = 0 := by omega
    rw [hnil]
  | succ k ih =>
    by_cases hk : input.length ≤ k
    · rw [readValues_fuel_succ k n input props hk]
      exact ih hk
    · have heq : input.length = k + 1 := by omega
      rw [heq]

theorem toInt32_range (u : Nat) : -2147483648 ≤ toInt32 u ∧ toInt32 u < 2147483648 := by
  unfold toInt32
  split <;> omega

theorem readInt_range (s : List Byte) :
    -2147483648 ≤ (readInt s).1 ∧ (readInt s).1 < 2147483648 := by
  unfold readInt
  split
  · exact toInt32_range _
  · simp

theorem wrapInt_of_range (v : Int) (h0 : -2147483648 ≤ v) (h1 : v < 2147483648) :
    wrapInt v = v := by
  by_cases hv : 0 ≤ v
  · exact wrapInt_of_nonneg v hv h1
  · unfold wrapInt toInt32
    have hmod : v % 4294967296 = v + 4294967296 := by omega
    rw [hmod]
    have hnat : ((v + 4294967296).toNat : Int) = v + 4294967296 :=
      Int.toNat_of_nonneg (by omega)
    have hlt : (v + 4294967296).toNat % 4294967296 = (v + 4294967296).toNat :=
      Nat.mod_eq_of_lt (by omega)
    rw [hlt]
    split
    · omega
    · omega

theorem setEntry_length (ic : Bool) (es : List (JString × JString)) (k v : JString) :
    (setEntry ic es k v).length ≤ es.length + 1 := by
  induction es with
  | nil => simp [setEntry]
  | cons e tl ih =>
    obtain ⟨k0, v0⟩ := e
    simp only [setEntry]
    split_ifs
    · simp
    · simp only [List.length_cons]
      omega

/-- The loop inserts at most as many entries as the count says. -/
theorem readValues_size (fuel : Nat) :
    ∀ (n : Int) (input : List Byte) (props : StringPairArray),
      -2147483648 < n → n < 2147483648 →
      (readValues fuel n input props).entries.length ≤ props.entries.length + n.toNat := by
  induction fuel with
  | zero => intro n input props _ _; simp [readValues]
  | succ k ih =>
    intro n input props h0 h1
    rw [readValues]
    have hw : wrapInt (n - 1) = n - 1 := wrapInt_of_range _ (by omega) (by omega)
    simp only [hw]
    by_cases hc : 0 ≤ n - 1 ∧ isExhausted input = false
    · simp only [hc, and_self, if_true]
      have hrec := ih (n - 1) (readString (readString input).2).2
        (if (readString input).1 ≠ [] then
          props.set (readString input).1 (readString (readString input).2).1 else props)
        (by omega) (by omega)
      have hset : (if (readString input).1 ≠ [] then
          props.set (readString input).1 (readString (readString input).2).1
            else props).entries.length ≤ props.entries.length + 1 := by
        split_ifs
        · exact setEntry_length _ _ _ _
        · omega
      have hn : (n - 1).toNat + 1 = n.toNat := by omega
      omega
    · simp only [hc, if_false]
      omega

/-- The loop never inserts an empty key. -/
theorem readValues_keys (fuel : Nat) :
    ∀ (n : Int) (input : List Byte) (props : StringPairArray),
      (∀ e ∈ props.entries, e.1 ≠ []) →
      ∀ e ∈ (readValues fuel n input props).entries, e.1 ≠ [] := by
  induction fuel with
  | zero => intro n input props h; exact h
  | succ k ih =>
    intro n input props h
    rw [readValues]
    by_cases hc : 0 ≤ wrapInt (n - 1) ∧ isExhausted input = false
    · simp only [hc, and_self, if_true]
      apply ih
      split_ifs with hkey
      · intro e he
        rcases setEntry_keys _ _ _ _ e he with ⟨a, ha, hab⟩ | hk
        · rw [← hab]; exact h a ha
        · rw [hk]; exact hkey
      · exact h
    · simp only [hc, if_false]
      exact h

/-- Whole pairs are read back also when the count announces more of them than
the stream holds. -/
theorem readValues_writePairs_count (ic : Bool) (ps : List (JString × JString)) :
    ∀ (fuel : Nat) (n : Int) (pre : List (JString × JString)),
      ps.length ≤ fuel → (ps.length : Int) ≤ n → n < 2147483648 →
      (∀ e ∈ ps, e.1 ≠ [] ∧ e.1.length < 2147483648 ∧ e.2.length < 2147483648) →
      (pre ++ ps).Pairwise (fun a b => keyMatches ic a.1 b.1 = false) →
      readValues fuel n (writePairs ps) ⟨pre, ic⟩ = ⟨pre ++ ps, ic⟩ := by
  induction ps with
  | nil =>
    intro fuel n pre _ _ _ _ _
    cases fuel with
    | zero => simp [readValues]
    | succ f => simp [readValues, writePairs, isExhausted]
  | cons e tl ih =>
    intro fuel n pre hfuel hn hlt hes hpw
    obtain ⟨k, v⟩ := e
    cases fuel with
    | zero => simp at hfuel
    | succ f =>
      have hk := hes (k, v) (List.mem_cons_self _ _)
      simp only [List.length_cons, Nat.cast_add, Nat.cast_one] at hn
      have hcount : wrapInt (n - 1) = n - 1 := wrapInt_of_range _ (by omega) (by omega)
      have hpre : ∀ e ∈ pre, keyMatches ic e.1 k = false := by
        intro e he
        rw [List.pairwise_append] at hpw
        exact hpw.2.2 e he (k, v) (List.mem_cons_self _ _)
      have hpw2 : ((pre ++ [(k, v)]) ++ tl).Pairwise
          (fun a b => keyMatches ic a.1 b.1 = false) := by
        simpa using hpw
      have ih2 := ih f (n - 1) (pre ++ [(k, v)]) (by simpa using hfuel) (by omega) (by omega)
        (fun e he => hes e (List.mem_cons_of_mem _ he)) hpw2
      have hnn : (0 : Int) ≤ n - 1 := by omega
      rw [readValues]
      simp only [hcount]
      simp only [writePairs, List.append_assoc, writeString_ne_nil,
        readString_writeString _ _ hk.2.1, readString_writeString _ _ hk.2.2]
      simp only [hnn, and_self, if_true, ne_eq, hk.1, not_false_eq_true,
        StringPairArray.set, setEntry_append ic pre k v hpre]
      rw [ih2]
      simp

/-- A pair with an empty key is passed over and the loop goes on with the next pair. -/
theorem readValues_empty_key (fuel : Nat) (n : Int) (value : JString) (rest : List Byte)
    (props : StringPairArray) (h1 : 1 ≤ n) (h2 : n < 2147483648)
    (hv : value.length < 2147483648) :
    readValues (fuel + 1) n (writeString [] ++ writeString value ++ rest) props
      = readValues fuel (n - 1) rest props := by
  have hcount : wrapInt (n - 1) = n - 1 := wrapInt_of_range _ (by omega) (by omega)
  have hnn : (0 : Int) ≤ n - 1 := by omega
  rw [readValues]
  simp only [hcount, List.append_assoc, writeString_ne_nil,
    readString_writeString _ _ (show ([] : JString).length < 2147483648 by simp),
    readString_writeString _ _ hv]
  simp [hnn]

/-- The loop stops when the stream is exhausted at the start of a pair. -/
theorem readValues_exhausted (fuel : Nat) (n : Int) (props : StringPairArray) :
    readValues fuel n [] props = props := by
  cases fuel with
  | zero => rfl
  | succ f => simp [readValues, isExhausted]

/-- The constructor on a file that starts with the plain magic number runs
the loop on what follows the count. -/
theorem new_of_binary_stream (P : Platform) (fl : Faults) (w : World) (f : File) (ms : Int)
    (opts : Nat) (stream : List Byte)
    (hfile : w.createInputStream fl f = some (writeInt propFileMagicNumber ++ stream)) :
    (PropertiesFile.new P fl w f ms opts).properties
      = readValues (readInt stream).2.length (readInt stream).1 (readInt stream).2
          ⟨[], true⟩ := by
  have hm : readInt (writeInt propFileMagicNumber ++ stream) = (propFileMagicNumber, stream) :=
    readInt_writeInt _ _ (by rw [magic_eq]; decide) (by rw [magic_eq]; decide)
  have hne : ¬ propFileMagicNumber = propFileMagicNumberCompressed := by decide
  unfold PropertiesFile.new
  simp only [hfile, hm, hne, decide_False, if_false, Bool.false_eq_true, if_true,
    PropertiesFile.getAllProperties]
  rw [show decide (ignoreCaseOfKeyNames ≠ 0) = true by decide]

/-- The pairs written before a cut between two pairs are a leading part of all
the pairs written. -/
theorem writePairs_take_leading (es : List (JString × JString)) :
    ∀ k : Nat, writePairs (es.take k) <+: writePairs es := by
  induction es with
  | nil => intro k; simp [writePairs]
  | cons e tl ih =>
    intro k
    obtain ⟨key, value⟩ := e
    cases k with
    | zero => simp [writePairs]
    | succ j =>
      simp only [List.take_succ_cons, writePairs, List.append_assoc]
      exact (List.prefix_append_right_inj _).2 ((List.prefix_append_right_inj _).2 (ih j))

/-- C13 (amended). Binary decode of damaged input, for every byte stream that
follows the plain magic number: the constructor runs the loop on what follows
the count, and the loop ends for every count, a larger bound on its passes
giving the same mapping; at most as many entries are inserted as the count
says (none for a count of zero or less; the least `int`, whose decrement
overflows, apart); no empty key is inserted; a pair with an empty key is
passed over and decoding goes on with the next pair; decoding stops when the
stream is exhausted at the start of a pair; and the encoding of storable
entries cut between two pairs is a leading part of the full encoding and
yields exactly the entries written before the cut. -/
theorem binary_decode_damaged (P : Platform) (fl : Faults) (w : World) (f : File)
    (millisecondsBeforeSaving : Int) (options_ : Nat) (stream : List Byte)
    (hfile : w.createInputStream fl f = some (writeInt propFileMagicNumber ++ stream)) :
    (PropertiesFile.new P fl w f millisecondsBeforeSaving options_).getAllProperties
        = readValues (readInt stream).2.length (readInt stream).1 (readInt stream).2
            ⟨[], true⟩
    ∧ (∀ fuel, (readInt stream).2.length ≤ fuel →
        readValues fuel (readInt stream).1 (readInt stream).2 ⟨[], true⟩
          = (PropertiesFile.new P fl w f millisecondsBeforeSaving options_).getAllProperties)
    ∧ ((readInt stream).1 ≠ -2147483648 →
        (PropertiesFile.new P fl w f millisecondsBeforeSaving options_).getAllProperties.size
          ≤ (readInt stream).1.toNat)
    ∧ (∀ e ∈ (PropertiesFile.new P fl w f millisecondsBeforeSaving
          options_).getAllProperties.entries, e.1 ≠ [])
    ∧ (∀ (fuel : Nat) (n : Int) (value : JString) (rest : List Byte)
          (props : StringPairArray),
        1 ≤ n → n < 2147483648 → value.length < 2147483648 →
        readValues (fuel + 1) n (writeString [] ++ writeString value ++ rest) props
          = readValues fuel (n - 1) rest props)
    ∧ (∀ (fuel : Nat) (n : Int) (props : StringPairArray),
        readValues fuel n [] props = props)
    ∧ (∀ (es : List (JString × JString)) (k : Nat), Storable es →
        stream = writeInt (es.length : Int) ++ writePairs (es.take k) →
        stream <+: writeValues ⟨es, true⟩
        ∧ (PropertiesFile.new P fl w f millisecondsBeforeSaving
            options_).getAllProperties.entries = es.take k) := by
  have hnew := new_of_binary_stream P fl w f millisecondsBeforeSaving options_ stream hfile
  have hrange := readInt_range stream
  refine ⟨hnew, ?_, ?_, ?_, ?_, ?_, ?_⟩
  · intro fuel hfuel
    unfold PropertiesFile.getAllProperties
    rw [hnew]
    exact readValues_fuel fuel _ _ _ hfuel
  · intro hmin
    unfold PropertiesFile.getAllProperties StringPairArray.size
    rw [hnew]
    have hsize := readValues_size (readInt stream).2.length (readInt stream).1
      (readInt stream).2 ⟨[], true⟩ (by omega) hrange.2
    simpa using hsize
  · unfold PropertiesFile.getAllProperties
    rw [hnew]
    exact readValues_keys _ _ _ _ (by simp)
  · intro fuel n value rest props h1 h2 hv
    exact readValues_empty_key fuel n value rest props h1 h2 hv
  · intro fuel n props
    exact readValues_exhausted fuel n props
  · intro es k hst hstream
    obtain ⟨hne, hpw, hlen, hsz⟩ := hst
    refine ⟨?_, ?_⟩
    · rw [hstream]
      unfold writeValues StringPairArray.size
      exact (List.prefix_append_right_inj _).2 (writePairs_take_leading es k)
    · have hcount : readInt stream = ((es.length : Int), writePairs (es.take k)) := by
        rw [hstream]
        exact readInt_writeInt _ _ (by omega) (by omega)
      unfold PropertiesFile.getAllProperties
      rw [hnew, hcount]
      have hsub : (es.take k).Sublist es := List.take_sublist k es
      have hread := readValues_writePairs_count true (es.take k)
        (writePairs (es.take k)).length (es.length : Int) []
        (length_le_writePairs _)
        (by have := hsub.length_le; omega) (by omega)
        (fun e he => ⟨hne e (hsub.subset he), hsz e (hsub.subset he)⟩)
        (by simpa using hpw.sublist hsub)
      simp only [hread, List.nil_append]

theorem binary_decode_damaged_witness :
    boundaryCutFile
        = writeInt propFileMagicNumber ++ (writeInt 2 ++ writePairs [(T "volume", T "11")])
    ∧ (PropertiesFile.new refPlatform Faults.none
        (emptyWorld.setFile exampleFile (some boundaryCutFile)) exampleFile 0
          storeAsBinary).getAllProperties.entries = [(T "volume", T "11")] :=
  have h := binary_decode_damaged refPlatform Faults.none
    (emptyWorld.setFile exampleFile (some boundaryCutFile)) exampleFile 0 storeAsBinary
    (writeInt (exampleEntries.length : Int) ++ writePairs (exampleEntries.take 1))
    (by decide)
  ⟨by decide, (h.2.2.2.2.2.2 exampleEntries 1 (by decide) rfl).2⟩

/-- C13 as stated fails. The encoding of the mapping `k` to `value` with its
last two bytes missing is decoded to the entry `k` to `val`, which is not an
entry of the mapping: the pair cut short is inserted, not discarded. And a
stream whose first pair has an empty key is decoded past that pair: the
second pair is inserted. -/
theorem binary_decode_damaged_counterexample :
    cutFile <+: writeInt propFileMagicNumber ++ writeValues ⟨cutEntries, true⟩
    ∧ (PropertiesFile.new refPlatform Faults.none
        (emptyWorld.setFile exampleFile (some cutFile)) exampleFile 0
          storeAsBinary).getAllProperties.entries = [(T "k", T "val")]
    ∧ (T "k", T "val") ∉ cutEntries
    ∧ (PropertiesFile.new refPlatform Faults.none
        (emptyWorld.setFile exampleFile (some emptyKeyFile)) exampleFile 0
          storeAsBinary).getAllProperties.entries = [(T "k", T "v")] := by
  refine ⟨by decide, by decide, by decide, by decide⟩

/-! ## Loading leaves the store clean -/

/-- C14. Loading never marks the store dirty: whatever the world holds at the
path (no file, a file that cannot be read, a binary or compressed binary
file, an XML document with any number of entries, or anything else), the
store just constructed does not need saving and its timer is stopped, and a
following `saveIfNeeded` returns true and leaves the store and the world as
they are, under any fault outcomes. -/
theorem loading_never_marks_dirty (P : Platform) (fl : Faults) (w : World) (f : File)
    (millisecondsBeforeSaving : Int) (options_ : Nat) (fl2 : Faults) (w2 : World) :
    (PropertiesFile.new P fl w f millisecondsBeforeSaving options_).needsToBeSaved = false
    ∧ (PropertiesFile.new P fl w f millisecondsBeforeSaving options_).isTimerRunning = false
    ∧ (PropertiesFile.new P fl w f millisecondsBeforeSaving options_).saveIfNeeded P fl2 w2
        = (true, PropertiesFile.new P fl w f millisecondsBeforeSaving options_, w2) := by
  have h := new_frame P fl w f millisecondsBeforeSaving options_
  refine ⟨h.1, ?_, saveIfNeeded_clean P fl2 _ w2 h.1⟩
  unfold PropertiesFile.isTimerRunning
  rw [h.2.1]
  decide

theorem loading_never_marks_dirty_witness :
    (PropertiesFile.new refPlatform Faults.none
        (emptyWorld.setFile exampleFile (some cutFile)) exampleFile 500
          storeAsBinary).getAllProperties.entries = [(T "k", T "val")]
    ∧ (PropertiesFile.new refPlatform Faults.none
        (emptyWorld.setFile exampleFile (some cutFile)) exampleFile 500
          storeAsBinary).needsToBeSaved = false
    ∧ ((PropertiesFile.new refPlatform Faults.none
        (emptyWorld.setFile exampleFile (some cutFile)) exampleFile 500
          storeAsBinary).saveIfNeeded refPlatform Faults.none
            (emptyWorld.setFile exampleFile (some cutFile))).1 = true :=
  have h := loading_never_marks_dirty refPlatform Faults.none
    (emptyWorld.setFile exampleFile (some cutFile)) exampleFile 500 storeAsBinary
    Faults.none (emptyWorld.setFile exampleFile (some cutFile))
  ⟨by decide, h.1, by rw [h.2.2]⟩


end Juce
